import Mathlib

/-!
# capsule: the frame receiver, the main loop and argument quoting

A shallow embedding of three translation units of capsulerun:

* `src/capsulerun/src/shared/VideoReceiver.cpp`: the bridge between the
  thread that reports committed frames and the encoder thread that pulls them;
* `src/capsulerun/src/main_loop.cc`: the event dispatcher that owns the
  capture session;
* `src/capsulerun/src/windows/quote.cc`: the quoting of one argument of a
  Windows command line.

Objects that live behind pointers are modelled by their identity (a natural
number) and, where the code calls into them, by the record of the calls made.
Threads are modelled by interleaving: a run of the program is a list of atomic
actions, each the critical section of one thread.
-/

set_option autoImplicit false

/-! ## Wire packets written by capsulerun -/

/-- The packets capsulerun writes to a target. `VideoFrameProcessed` carries a
ring slot number, `CaptureStart` the three capture parameters. -/
inductive Packet where
  | CaptureStart (fps : Nat) (size_divider : Nat) (gpu_color_conv : Bool)
  | CaptureStop
  | VideoFrameProcessed (index : Nat)
deriving DecidableEq, Repr

/-! ## VideoReceiver.cpp -/

/-- The element type of the receiver's queue: `FrameInfo info {index, timestamp}`.
`index` is a ring slot number (an unsigned 32-bit value on the wire),
`timestamp` an `int64_t`. -/
structure FrameInfo where
  index : Nat
  timestamp : Int
deriving DecidableEq, Repr

/-- The format record copied out by `receiveFormat`. -/
structure video_format_t where
  width : Nat
  height : Nat
  format : Nat
  vflip : Bool
  pitch : Nat
deriving DecidableEq, Repr

/-- The members of `VideoReceiver` that `VideoReceiver.cpp` touches.

* `queue`: the pending frames, head first (`queue.push` appends at the tail,
  `queue.tryWaitAndPop` removes the head);
* `stopped`: the flag guarded by `stopped_mutex`;
* `mapped`: the bytes of the shared-memory mapping, by offset from `shm->mapped`;
* `io`: the packets written through `WRITEPKT(builder, io)`, oldest first. -/
structure VideoReceiver where
  vfmt : video_format_t
  queue : List FrameInfo
  stopped : Bool
  mapped : Nat → Nat
  io : List Packet

namespace VideoReceiver

/-- The width of `size_t` on the 64-bit targets capsulerun is built for. -/
def SIZE_BITS : Nat := 64

/-- `buffer_size * info.index` as `size_t` arithmetic (line 34). -/
def sourceOffset (buffer_size : Nat) (index : Nat) : Nat :=
  (buffer_size * index) % 2 ^ SIZE_BITS

/-- The width of `int`, the return type of `receiveFrame`. -/
def INT_BITS : Nat := 32

/-- A `size_t` converted to `int`, as `return buffer_size;` does in a function
that returns `int`: the value is reduced modulo 2^32 and read as a signed 32-bit
number. -/
def toInt (n : Nat) : Int :=
  if n % 2 ^ INT_BITS < 2 ^ (INT_BITS - 1) then
    ((n % 2 ^ INT_BITS : Nat) : Int)
  else
    ((n % 2 ^ INT_BITS : Nat) : Int) - ((2 ^ INT_BITS : Nat) : Int)

/-- `memcpy(buffer, shm->mapped + offset, buffer_size)`: the first `buffer_size`
bytes of `buffer` are replaced by the bytes of the mapping from `offset` on, the
others are kept. -/
def memcpy (buffer : Nat → Nat) (mapped : Nat → Nat) (offset : Nat) (buffer_size : Nat) :
    Nat → Nat :=
  fun i => if i < buffer_size then mapped (offset + i) else buffer i

/-- `VideoReceiver::frameCommitted` (lines 47-58). -/
def frameCommitted (r : VideoReceiver) (index : Nat) (timestamp : Int) : VideoReceiver :=
  if r.stopped then
    -- just ignore
    r
  else
    { r with queue := r.queue ++ [{ index := index, timestamp := timestamp }] }

/-- `VideoReceiver::stop` (lines 60-63). -/
def stop (r : VideoReceiver) : VideoReceiver :=
  { r with stopped := true }

/-- Where the encoder thread stands inside the `while (true)` loop of
`receiveFrame`: before `queue.tryWaitAndPop` (line 20), or after a pop that
timed out and before the test of `stopped` (lines 27-30). The two are separate
critical sections (the queue's lock, then `stopped_mutex`), so another thread may
run between them. -/
inductive Pc where
  | pop
  | check
deriving DecidableEq, Repr

/-- The activation record of one `receiveFrame` call: its three arguments (the
bytes at `buffer`, `buffer_size`, the value at `timestamp`) and the place where
it stands. -/
structure Activation where
  buffer : Nat → Nat
  buffer_size : Nat
  timestamp : Int
  pc : Pc

/-- What a finished `receiveFrame` call leaves to its caller: the return value
(an `int`), the bytes at `buffer`, the value at `timestamp`. `buffer_size`
repeats the argument of the call and `info` is the frame the call popped
(`none` when it left through `return 0`). -/
structure Returned where
  ret : Int
  buffer : Nat → Nat
  timestamp : Int
  buffer_size : Nat
  info : Option FrameInfo

/-- The encoder thread enters `receiveFrame(buffer, buffer_size, timestamp)`. -/
def enter (buffer : Nat → Nat) (buffer_size : Nat) (timestamp : Int) : Activation :=
  { buffer := buffer, buffer_size := buffer_size, timestamp := timestamp, pc := Pc.pop }

/-- One critical section of `VideoReceiver::receiveFrame` (lines 14-45).

At `Pc.pop` the timed pop runs: with a frame pending it takes the head, leaves
the loop and runs lines 34-44 (copy, timestamp, acknowledgement, `return
buffer_size`); with nothing pending it times out and the call moves on to the
test. At `Pc.check` the call returns 0 when `stopped` is set and goes back to the
pop otherwise. -/
def receiveFrame_step (r : VideoReceiver) (a : Activation) :
    VideoReceiver × (Activation ⊕ Returned) :=
  match a.pc with
  | Pc.pop =>
    match r.queue with
    | info :: rest =>
      ({ r with queue := rest, io := r.io ++ [Packet.VideoFrameProcessed info.index] },
        Sum.inr
          { ret := toInt a.buffer_size
            buffer := memcpy a.buffer r.mapped (sourceOffset a.buffer_size info.index)
              a.buffer_size
            timestamp := info.timestamp
            buffer_size := a.buffer_size
            info := some info })
    | [] => (r, Sum.inl { a with pc := Pc.check })
  | Pc.check =>
    if r.stopped then
      (r, Sum.inr
        { ret := 0
          buffer := a.buffer
          timestamp := a.timestamp
          buffer_size := a.buffer_size
          info := none })
    else
      (r, Sum.inl { a with pc := Pc.pop })

/-- The call run from activation `a` while no other thread touches the
receiver: `fuel` bounds the number of critical sections. `none` means the call
is still waiting when the fuel is spent. -/
def receiveFrame_from (r : VideoReceiver) (a : Activation) :
    Nat → Option (VideoReceiver × Returned)
  | 0 => none
  | fuel + 1 =>
    match receiveFrame_step r a with
    | (r1, Sum.inr res) => some (r1, res)
    | (r1, Sum.inl a1) => receiveFrame_from r1 a1 fuel

/-- `VideoReceiver::receiveFrame` with no other thread running. -/
def receiveFrame (fuel : Nat) (r : VideoReceiver) (buffer : Nat → Nat) (buffer_size : Nat)
    (timestamp : Int) : Option (VideoReceiver × Returned) :=
  receiveFrame_from r (enter buffer buffer_size timestamp) fuel

/-- The atomic actions of the two threads that share a receiver: the reporting
thread calls `frameCommitted` and `stop`; the encoder thread enters
`receiveFrame` and then runs it one critical section at a time.

`frameCommitted` reads `stopped` and then pushes. Only the reporting thread
writes `stopped`, and the encoder thread only pops, so what the encoder does
between the read and the push could as well have happened before the read: the
call is taken as one action. -/
inductive Action where
  | frameCommitted (index : Nat) (timestamp : Int)
  | stop
  | receiveFrame (buffer : Nat → Nat) (buffer_size : Nat) (timestamp : Int)
  | resume

/-- A receiver together with the encoder thread: the call in progress, if any,
and the finished calls, oldest first. -/
structure World where
  recv : VideoReceiver
  call : Option Activation
  results : List Returned

/-- The world in which receiver `r` has not been pulled from yet. -/
def World.start (r : VideoReceiver) (call : Option Activation) : World :=
  { recv := r, call := call, results := [] }

/-- One action. The encoder thread makes one call at a time, so entering while
a call is in progress, or resuming with none, leaves the world as it is. -/
def World.step (w : World) : Action → World
  | Action.frameCommitted index timestamp =>
    { w with recv := w.recv.frameCommitted index timestamp }
  | Action.stop => { w with recv := w.recv.stop }
  | Action.receiveFrame buffer buffer_size timestamp =>
    match w.call with
    | some _ => w
    | none => { w with call := some (enter buffer buffer_size timestamp) }
  | Action.resume =>
    match w.call with
    | none => w
    | some a =>
      match receiveFrame_step w.recv a with
      | (r1, Sum.inl a1) => { w with recv := r1, call := some a1 }
      | (r1, Sum.inr res) => { recv := r1, call := none, results := w.results ++ [res] }

/-- An interleaving, run from `w`. -/
def World.exec (w : World) : List Action → World
  | [] => w
  | a :: rest => (w.step a).exec rest

/-- The frames the encoder consumed: those popped by the finished calls. -/
def World.consumed (w : World) : List FrameInfo :=
  w.results.filterMap (fun res => res.info)

/-- The frames handed to `frameCommitted` before the first `stop` of an
interleaving (none when the receiver is stopped from the start): the calls that
are not dropped. -/
def accepted : Bool → List Action → List FrameInfo
  | true, _ => []
  | false, [] => []
  | false, Action.frameCommitted index timestamp :: rest =>
    { index := index, timestamp := timestamp } :: accepted false rest
  | false, Action.stop :: _ => []
  | false, _ :: rest => accepted false rest

/-- The acknowledgement of a frame. -/
def ack (info : FrameInfo) : Packet :=
  Packet.VideoFrameProcessed info.index

/-- Whether an action is a `frameCommitted` call. -/
def Action.isCommit : Action → Bool
  | Action.frameCommitted _ _ => true
  | _ => false

end VideoReceiver

/-! ## main_loop.cc -/

namespace capsule

/-- A `Connection *`: connections are told apart by address, not by pipe name. -/
abbrev Connection := Nat

/-- A `Session *`: the address of a `Session` object. The n-th object made by
`new Session` has address n; no `Session` is ever deleted, so a new one never
shares its address with an older one. -/
abbrev SessionPtr := Nat

/-- The fields of `args_` that `main_loop.cc` reads. -/
structure MainArgs where
  fps : Nat
  size_divider : Nat
  gpu_color_conv : Bool
  buffered_frames : Int
  no_audio : Bool
deriving DecidableEq, Repr

namespace messages

/-- The `shmem` sub-record of a `VideoSetup`: `path()->str()` and `size()`. -/
structure Shmem where
  path : String
  size : Nat
deriving DecidableEq, Repr

/-- The `audio` sub-record of a `VideoSetup`, which `main_loop.cc` hands on
unread to the intercept receiver. -/
structure AudioSetup where
  layout : Nat
deriving DecidableEq, Repr

/-- What `StartSession` reads from a `VideoSetup`: `width()`, `height()`,
`pix_fmt()`, `vflip()`, `linesize()->Get(0)`, `shmem()` and `audio()` (which may
be null). -/
structure VideoSetup where
  width : Nat
  height : Nat
  pix_fmt : Nat
  vflip : Bool
  linesize0 : Nat
  shmem : Shmem
  audio : Option AudioSetup
deriving DecidableEq, Repr

/-- A received packet by `message_type()`, with the fields the dispatcher
reads. `Other` stands for every type that falls to the `default` label. -/
inductive Message where
  | HotkeyPressed
  | CaptureStop
  | VideoSetup (vs : VideoSetup)
  | VideoFrameCommitted (index : Nat) (timestamp : Int)
  | AudioFramesCommitted (offset : Nat) (frames : Nat)
  | SawBackend (backend : Nat)
  | Other (message_type : Nat)
deriving DecidableEq, Repr

end messages

/-- An element of `queue_`: `LoopMessage msg{conn, buf}`. -/
structure LoopMessage where
  conn : Connection
  buf : messages.Message
deriving DecidableEq, Repr

namespace encoder

/-- The format record `StartSession` fills in for the encoder. -/
structure VideoFormat where
  width : Nat
  height : Nat
  format : Nat
  vflip : Bool
  pitch : Nat
deriving DecidableEq, Repr

end encoder

namespace shoom

/-- The code `Shm::Open` returns on success. The library is not part of the
sources; nothing below depends on the value. -/
def kOK : Int := 0

end shoom

namespace video

/-- A video receiver as the main loop sees it: the arguments of
`new video::VideoReceiver(conn, vfmt, shm, num_buffered_frames)`. -/
structure VideoReceiver where
  conn : Connection
  vfmt : encoder.VideoFormat
  shm : messages.Shmem
  num_buffered_frames : Int
deriving DecidableEq, Repr

end video

namespace audio

/-- An audio receiver as the main loop sees it: either
`new audio::AudioInterceptReceiver(conn, *as)` or an object handed out by the
receiver factory. -/
inductive AudioReceiver where
  | intercept (conn : Connection) (as : messages.AudioSetup)
  | external (handle : Nat)
deriving DecidableEq, Repr

end audio

/-- Modelled from the spec: the class `Session` (its header and source are not
among the sources). A session is made from `args`, a video receiver and an
optional audio receiver; `main_loop.cc` reads its members `video_` and `audio_`
and calls `Start`, `Stop` and `Join` on it. -/
structure Session where
  args_ : MainArgs
  video_ : Option video.VideoReceiver
  audio_ : Option audio.AudioReceiver
deriving DecidableEq, Repr

/-- The calls the main loop makes on a session or on its receivers. -/
inductive SessionCall where
  | Start
  | Stop
  | Join
  | FrameCommitted (index : Nat) (timestamp : Int)
  | FramesCommitted (offset : Nat) (frames : Nat)
deriving DecidableEq, Repr

/-- The members of `MainLoop` that `main_loop.cc` uses, followed by the
surroundings the code acts on:

* `heap`: the `Session` objects made so far, by address;
* `calls`: the calls made on sessions and their receivers, oldest first;
* `written`: the `conn->Write(builder)` calls, oldest first;
* `shm_opens`: the `shm->Open()` calls with their return codes;
* `factory_calls`: how often `audio_receiver_factory_` has been called;
* `pollers`: the connections whose `PollConnection` thread is still reading;
* `dispatched`: the messages `Run` has popped, oldest first;
* `returned`: whether `Run` has returned. -/
structure MainLoop where
  args_ : MainArgs
  audio_receiver_factory_ : Option (Unit → Option audio.AudioReceiver)
  conns_ : List Connection
  queue_ : List LoopMessage
  best_conn_ : Option Connection
  session_ : Option SessionPtr
  old_sessions_ : List SessionPtr
  heap : List Session
  calls : List (SessionPtr × SessionCall)
  written : List (Connection × Packet)
  shm_opens : List (messages.Shmem × Int)
  factory_calls : Nat
  pollers : List Connection
  dispatched : List LoopMessage
  returned : Bool

namespace MainLoop

/-- Modelled from the spec: the state of a `MainLoop` before `AddConnection` and
`Run` are called (the constructor is in the header, which is not among the
sources): no connection, no event, no preferred connection, no session. -/
def init (args : MainArgs) (factory : Option (Unit → Option audio.AudioReceiver)) :
    MainLoop :=
  { args_ := args
    audio_receiver_factory_ := factory
    conns_ := []
    queue_ := []
    best_conn_ := none
    session_ := none
    old_sessions_ := []
    heap := []
    calls := []
    written := []
    shm_opens := []
    factory_calls := 0
    pollers := []
    dispatched := []
    returned := false }

/-- `MainLoop::AddConnection` (lines 39-46): the connection is appended to
`conns_` and a `PollConnection` thread is started for it. -/
def AddConnection (m : MainLoop) (conn : Connection) : MainLoop :=
  { m with conns_ := m.conns_ ++ [conn], pollers := m.pollers ++ [conn] }

/-- `MainLoop::PollConnection`, lines 54-61: `conn->Read()` returned `buf` and
the thread pushes it onto `queue_`. -/
def PollConnection_push (m : MainLoop) (conn : Connection) (buf : messages.Message) :
    MainLoop :=
  { m with queue_ := m.queue_ ++ [{ conn := conn, buf := buf }] }

/-- `MainLoop::PollConnection`, lines 67-71: the thread is done reading (the
read returned null, or the connection never opened), removes every occurrence
of `conn` from `conns_` and ends. -/
def PollConnection_cull (m : MainLoop) (conn : Connection) : MainLoop :=
  { m with conns_ := m.conns_.filter (fun c => c != conn), pollers := m.pollers.erase conn }

/-- `MainLoop::EndSession` (lines 175-186). -/
def EndSession (m : MainLoop) : MainLoop :=
  match m.session_ with
  | none => m
  | some old_session =>
    { m with
      session_ := none
      calls := m.calls ++ [(old_session, SessionCall.Stop)]
      old_sessions_ := m.old_sessions_ ++ [old_session] }

/-- `MainLoop::JoinSessions` (lines 188-197). -/
def JoinSessions (m : MainLoop) : MainLoop :=
  { m with calls := m.calls ++ m.old_sessions_.map (fun session => (session, SessionCall.Join)) }

/-- `MainLoop::CaptureStop` (lines 199-211). -/
def CaptureStop (m : MainLoop) : MainLoop :=
  let m1 := m.EndSession
  { m1 with written := m1.written ++ m1.conns_.map (fun conn => (conn, Packet.CaptureStop)) }

/-- `MainLoop::CaptureStart` (lines 159-173). `none` is undefined behaviour:
`conns_.front()` on an empty vector. -/
def CaptureStart (m : MainLoop) : Option MainLoop :=
  let builder := Packet.CaptureStart m.args_.fps m.args_.size_divider m.args_.gpu_color_conv
  match m.best_conn_ with
  | some conn => some { m with written := m.written ++ [(conn, builder)] }
  | none =>
    -- pick the first one
    match m.conns_ with
    | conn :: _ => some { m with written := m.written ++ [(conn, builder)] }
    | [] => none

/-- `MainLoop::CaptureFlip` (lines 150-157). -/
def CaptureFlip (m : MainLoop) : Option MainLoop :=
  match m.session_ with
  | some _ => some m.CaptureStop
  | none => m.CaptureStart

/-- The audio receiver `StartSession` picks (lines 253-266), with the number of
factory calls made on the way. -/
def selectAudio (m : MainLoop) (vs : messages.VideoSetup) (conn : Connection) :
    Option audio.AudioReceiver × Nat :=
  if m.args_.no_audio then
    (none, 0)
  else
    match vs.audio with
    | some as => (some (audio.AudioReceiver.intercept conn as), 0)
    | none =>
      match m.audio_receiver_factory_ with
      | some factory => (factory (), 1)
      | none => (none, 0)

/-- `MainLoop::StartSession` (lines 213-270). `ret` is what `shm->Open()`
returns if the call is reached. -/
def StartSession (ret : Int) (m : MainLoop) (vs : messages.VideoSetup) (conn : Connection) :
    MainLoop :=
  match m.session_ with
  | some _ => m
  | none =>
    if vs.width == 0 || vs.height == 0 then
      m
    else
      let vfmt : encoder.VideoFormat :=
        { width := vs.width
          height := vs.height
          format := vs.pix_fmt
          vflip := vs.vflip
          pitch := vs.linesize0 }
      let m1 := { m with shm_opens := m.shm_opens ++ [(vs.shmem, ret)] }
      if ret != shoom.kOK then
        m1
      else
        let num_buffered_frames : Int :=
          if m.args_.buffered_frames != 0 then m.args_.buffered_frames else 3
        let video : video.VideoReceiver :=
          { conn := conn, vfmt := vfmt, shm := vs.shmem, num_buffered_frames := num_buffered_frames }
        let audio := m.selectAudio vs conn
        let session : SessionPtr := m.heap.length
        { m1 with
          factory_calls := m.factory_calls + audio.2
          heap := m.heap ++ [{ args_ := m.args_, video_ := some video, audio_ := audio.1 }]
          session_ := some session
          calls := m.calls ++ [(session, SessionCall.Start)] }

/-- The receiver `session_->video_`, when `session_` is set. -/
def session_video (m : MainLoop) : Option video.VideoReceiver :=
  match m.session_ with
  | none => none
  | some session => (m.heap[session]?).bind (fun s => s.video_)

/-- The receiver `session_->audio_`, when `session_` is set. -/
def session_audio (m : MainLoop) : Option audio.AudioReceiver :=
  match m.session_ with
  | none => none
  | some session => (m.heap[session]?).bind (fun s => s.audio_)

/-- The `switch` of `MainLoop::Run` (lines 95-141) on a popped message. `ret`
is the return code of `shm->Open()`, should `StartSession` reach that call. -/
def Dispatch (ret : Int) (m : MainLoop) (msg : LoopMessage) : Option MainLoop :=
  match msg.buf with
  | messages.Message.HotkeyPressed => m.CaptureFlip
  | messages.Message.CaptureStop => some m.CaptureStop
  | messages.Message.VideoSetup vs => some (m.StartSession ret vs msg.conn)
  | messages.Message.VideoFrameCommitted index timestamp =>
    match m.session_, m.session_video with
    | some session, some _ =>
      some { m with calls := m.calls ++ [(session, SessionCall.FrameCommitted index timestamp)] }
    | _, _ => some m
  | messages.Message.AudioFramesCommitted offset frames =>
    match m.session_, m.session_audio with
    | some session, some _ =>
      some { m with calls := m.calls ++ [(session, SessionCall.FramesCommitted offset frames)] }
    | _, _ => some m
  | messages.Message.SawBackend _ => some { m with best_conn_ := some msg.conn }
  | messages.Message.Other _ => some m

/-- One pass through the loop of `MainLoop::Run` (lines 80-142), and, when the
loop is left, the two calls that follow it (lines 144-147). With a message in
`queue_` the timed pop takes it and the message is dispatched; with none the pop
times out, and the loop is left exactly when `conns_` is empty. -/
def Run_cycle (ret : Int) (m : MainLoop) : Option MainLoop :=
  match m.queue_ with
  | msg :: rest =>
    Dispatch ret { m with queue_ := rest, dispatched := m.dispatched ++ [msg] } msg
  | [] =>
    if m.conns_.isEmpty then
      some { m.EndSession.JoinSessions with returned := true }
    else
      some m

/-- The atomic actions of the threads around a `MainLoop`: the owner adds a
connection; the `PollConnection` thread of a connection pushes a message it has
read, or ends; the thread in `Run` goes once through its loop. -/
inductive Action where
  | AddConnection (conn : Connection)
  | Read (conn : Connection) (buf : messages.Message)
  | Eof (conn : Connection)
  | Cycle (ret : Int)
deriving DecidableEq, Repr

/-- One action. A connection without a running `PollConnection` thread neither
reads nor ends, and `Run` does nothing more once it has returned; `none` is
undefined behaviour. -/
def step (m : MainLoop) : Action → Option MainLoop
  | Action.AddConnection conn => some (m.AddConnection conn)
  | Action.Read conn buf =>
    if conn ∈ m.pollers then some (m.PollConnection_push conn buf) else some m
  | Action.Eof conn =>
    if conn ∈ m.pollers then some (m.PollConnection_cull conn) else some m
  | Action.Cycle ret =>
    if m.returned then some m else m.Run_cycle ret

/-- An interleaving, run from `m`. -/
def exec (m : MainLoop) : List Action → Option MainLoop
  | [] => some m
  | a :: rest => (m.step a).bind (fun m1 => m1.exec rest)

/-- The connections handed to `AddConnection` in an interleaving, in order. -/
def added : List Action → List Connection
  | [] => []
  | Action.AddConnection conn :: rest => conn :: added rest
  | _ :: rest => added rest

/-- The connection of the latest `SawBackend` among the dispatched messages. -/
def lastSawBackend : List LoopMessage → Option Connection
  | [] => none
  | msg :: rest =>
    match lastSawBackend rest, msg.buf with
    | some conn, _ => some conn
    | none, messages.Message.SawBackend _ => some msg.conn
    | none, _ => none

/-- The preferred connection after `msg` has been dispatched, when it was
`best` before: the connection of `msg` if `msg` is a `SawBackend`. -/
def lastSawBackend_or (best : Option Connection) (msg : LoopMessage) : Option Connection :=
  match msg.buf with
  | messages.Message.SawBackend _ => some msg.conn
  | _ => best

/-- How one action may change the session bookkeeping: not at all, by ending
the current session, or by starting a session at a fresh address. Calls are only
ever added to the record. -/
def SessionMove (m m1 : MainLoop) : Prop :=
  (∀ c ∈ m.calls, c ∈ m1.calls) ∧
  ((m1.session_ = m.session_ ∧ m1.old_sessions_ = m.old_sessions_ ∧ m1.heap = m.heap)
    ∨ (∃ p, m.session_ = some p ∧ m1.session_ = none
        ∧ m1.old_sessions_ = m.old_sessions_ ++ [p] ∧ m1.heap = m.heap
        ∧ (p, SessionCall.Stop) ∈ m1.calls)
    ∨ (m.session_ = none ∧ m1.session_ = some m.heap.length
        ∧ m1.old_sessions_ = m.old_sessions_ ∧ m1.heap.length = m.heap.length + 1))

/-- The bookkeeping invariant of the sessions: the addresses in use are those
of objects made, the current session is not among the old ones, no old session
is listed twice, and every old session has been stopped. -/
def SessionsOk (m : MainLoop) : Prop :=
  (∀ p, m.session_ = some p → p < m.heap.length)
  ∧ (∀ p ∈ m.old_sessions_, p < m.heap.length)
  ∧ (∀ p, m.session_ = some p → p ∉ m.old_sessions_)
  ∧ m.old_sessions_.Nodup
  ∧ (∀ p ∈ m.old_sessions_, (p, SessionCall.Stop) ∈ m.calls)

end MainLoop

end capsule

namespace capsule

namespace MainLoop

/-- Every session object made so far is the current session or an old one. -/
def AllAccounted (m : MainLoop) : Prop :=
  ∀ p, p < m.heap.length → m.session_ = some p ∨ p ∈ m.old_sessions_

/-- Session `p` has had `Stop` called on it and, later, `Join`. -/
def StoppedThenJoined (m : MainLoop) (p : SessionPtr) : Prop :=
  ∃ a b c, m.calls = a ++ (p, SessionCall.Stop) :: (b ++ (p, SessionCall.Join) :: c)

/-- What holds once `Run` has returned: no current session, and every session
object made is an old session that was stopped and then joined. -/
def Finished (m : MainLoop) : Prop :=
  m.session_ = none
    ∧ ∀ p, p < m.heap.length → p ∈ m.old_sessions_ ∧ m.StoppedThenJoined p

end MainLoop

end capsule

/-! ## quote.cc -/

namespace quote

/-- The width of `unsigned` on the Windows targets `quote.cc` is built for. -/
def UNSIGNED_BITS : Nat := 32

/-- A value brought back into the range of `unsigned`. -/
def unsigned (n : Nat) : Nat :=
  n % 2 ^ UNSIGNED_BITS

/-- Whether a character is one of `L" \t\n\v\""`, the set that
`Argument.find_first_of` looks for (line 66). -/
def special (c : Char) : Bool :=
  c == ' ' || c == '\t' || c == '\n' || c == '\x0b' || c == '"'

/-- The `for` loop of `ArgvQuote` (lines 73-111) from the point where `It`
stands before the given characters and `NumberBackslashes` is `n`: the text it
appends. A backslash is counted; a double quote or another character ends the
run, the run is written out (doubled and one more before a quote), the counter
starts again at 0; at the end of the argument the run is written out doubled. -/
def ArgvQuote_loop : List Char → Nat → List Char
  | [], n => List.replicate (unsigned (n * 2)) '\\'
  | c :: rest, n =>
    if c = '\\' then
      ArgvQuote_loop rest (unsigned (n + 1))
    else if c = '"' then
      List.replicate (unsigned (n * 2 + 1)) '\\' ++ c :: ArgvQuote_loop rest 0
    else
      List.replicate n '\\' ++ c :: ArgvQuote_loop rest 0

/-- `ArgvQuote` (lines 51-115): the command line after the call. A `wstring`
is the list of its characters. -/
def ArgvQuote (Argument : List Char) (CommandLine : List Char) (Force : Bool) : List Char :=
  if Force == false && Argument.isEmpty == false && !(Argument.any special) then
    CommandLine ++ Argument
  else
    CommandLine ++ '"' :: (ArgvQuote_loop Argument 0 ++ ['"'])

/-- The argument rules of `CommandLineToArgvW`, run over a text one character
at a time. `ws` says which characters count as white space; `inArg` whether an
argument has begun, `inQuotes` whether the scan is inside double quotes, `n` is
the length of the run of backslashes just read, `acc` the argument so far.

* a run of 2n backslashes before a double quote gives n backslashes, and the
  quote switches `inQuotes`;
* a run of 2n+1 backslashes before a double quote gives n backslashes and a
  literal double quote;
* a run of backslashes before anything else, or at the end, is literal;
* white space outside quotes ends the argument, and white space between
  arguments is skipped. -/
def argvScan (ws : Char → Bool) :
    List Char → (inArg : Bool) → (inQuotes : Bool) → (n : Nat) → (acc : List Char) →
      List (List Char)
  | [], inArg, _, n, acc => if inArg then [acc ++ List.replicate n '\\'] else []
  | c :: rest, inArg, inQuotes, n, acc =>
    if !inArg && ws c then
      argvScan ws rest false false 0 []
    else if c = '\\' then
      argvScan ws rest true inQuotes (n + 1) acc
    else if c = '"' then
      if n % 2 = 0 then
        argvScan ws rest true (!inQuotes) 0 (acc ++ List.replicate (n / 2) '\\')
      else
        argvScan ws rest true inQuotes 0 (acc ++ List.replicate (n / 2) '\\' ++ ['"'])
    else if ws c && !inQuotes then
      (acc ++ List.replicate n '\\') :: argvScan ws rest false false 0 []
    else
      argvScan ws rest true inQuotes 0 (acc ++ List.replicate n '\\' ++ [c])

/-- The arguments `CommandLineToArgvW` reads from a text by the rules above. -/
def CommandLineToArgvW (ws : Char → Bool) (text : List Char) : List (List Char) :=
  argvScan ws text false false 0 []

/-- White space as `CommandLineToArgvW` documents it: a space or a tab. -/
def spaceOrTab (c : Char) : Bool :=
  c == ' ' || c == '\t'

end quote

/-! ## Sample inputs -/

namespace VideoReceiver

/-- A receiver with nothing pending, not stopped, over a mapping whose byte at
offset `i` is `i % 256`. -/
def sample : VideoReceiver :=
  { vfmt := { width := 2, height := 2, format := 0, vflip := false, pitch := 8 }
    queue := []
    stopped := false
    mapped := fun i => i % 256
    io := [] }

/-- A receiver that is not stopped, with the frames of slots 7 and 8 pending. -/
def samplePending : VideoReceiver :=
  { sample with
    queue := [{ index := 7, timestamp := 100 }, { index := 8, timestamp := 200 }] }

/-- The receiver is stopped with nothing pending, and the encoder then makes a
call with a `buffer_size` of 0 and runs it to its end. -/
def stopPullZero : List Action :=
  [Action.stop, Action.receiveFrame (fun _ => 0) 0 0, Action.resume, Action.resume]

/-- A frame is committed and the encoder takes it with a `buffer_size` of
2^32. -/
def commitPullHuge : List Action :=
  [Action.frameCommitted 7 100, Action.receiveFrame (fun _ => 0) (2 ^ 32) 0, Action.resume]

/-- A frame is committed and taken, the receiver is stopped, and one more call
runs to its end; every call has a `buffer_size` of 4. -/
def commitPullStopPull : List Action :=
  [Action.frameCommitted 7 100, Action.receiveFrame (fun _ => 0) 4 0, Action.resume,
    Action.stop, Action.receiveFrame (fun _ => 0) 4 0, Action.resume, Action.resume]

end VideoReceiver

namespace capsule

namespace MainLoop

/-- Arguments with audio capture left on. -/
def sampleArgs : MainArgs :=
  { fps := 60, size_divider := 1, gpu_color_conv := false, buffered_frames := 0,
    no_audio := false }

/-- A 320 by 240 setup with an audio sub-record. -/
def sampleSetup : messages.VideoSetup :=
  { width := 320
    height := 240
    pix_fmt := 0
    vflip := false
    linesize0 := 1280
    shmem := { path := "capsule.shm", size := 921600 }
    audio := some { layout := 2 } }

/-- One connection; a session is set up on it and ended by the hotkey. -/
def startThenFlip : List Action :=
  [Action.AddConnection 0,
    Action.Read 0 (messages.Message.VideoSetup sampleSetup), Action.Cycle 0,
    Action.Read 0 messages.Message.HotkeyPressed, Action.Cycle 0]

/-- Connections 1 and 2 are added in this order and `SawBackend` arrives on 2. -/
def sawBackendOnSecond : List Action :=
  [Action.AddConnection 1, Action.AddConnection 2,
    Action.Read 2 (messages.Message.SawBackend 0), Action.Cycle 0]

/-- Connection 7 announces its backend and then goes away: its reader pushes
`SawBackend`, the loop dispatches it, the reader meets the end of the stream. -/
def sawBackendThenEof : List Action :=
  [Action.AddConnection 7, Action.Read 7 (messages.Message.SawBackend 0), Action.Cycle 0,
    Action.Eof 7]

/-- One connection; a session is set up on it, the connection goes away while
the session runs, and the loop then finds nothing to pop and no connection. -/
def startThenDisconnect : List Action :=
  [Action.AddConnection 0,
    Action.Read 0 (messages.Message.VideoSetup sampleSetup), Action.Cycle 0,
    Action.Eof 0, Action.Cycle 0]

/-- Connection 0 sends `HotkeyPressed` and goes away before the loop gets to
the message: its reader pushes the message and then meets the end of the
stream. -/
def hotkeyThenEof : List Action :=
  [Action.AddConnection 0, Action.Read 0 messages.Message.HotkeyPressed, Action.Eof 0]

/-- Connection 3 is handed to `AddConnection` twice and a session is set up on
it. -/
def addedTwice : List Action :=
  [Action.AddConnection 3, Action.AddConnection 3,
    Action.Read 3 (messages.Message.VideoSetup sampleSetup), Action.Cycle 0]

/-- The state an interleaving leads to from the initial state with `sampleArgs`
and no factory (the initial state itself where the behaviour is undefined). -/
def sampleRun (tr : List Action) : MainLoop :=
  ((init sampleArgs none).exec tr).getD (init sampleArgs none)

end MainLoop

end capsule

/-! ## Facts about the receiver -/

namespace VideoReceiver

theorem step_stopped (w : World) (a : Action) (h : w.recv.stopped = true) :
    (w.step a).recv.stopped = true := by
  cases a with
  | frameCommitted index timestamp => simp [World.step, frameCommitted, h]
  | stop => simp [World.step, stop]
  | receiveFrame buffer buffer_size timestamp =>
    cases hc : w.call <;> simp [World.step, hc, h]
  | resume =>
    cases hc : w.call with
    | none => simp [World.step, hc, h]
    | some a =>
      cases hp : a.pc with
      | pop =>
        cases hq : w.recv.queue <;> simp [World.step, hc, receiveFrame_step, hp, hq, h]
      | check => simp [World.step, hc, receiveFrame_step, hp, h]

theorem exec_stopped (w : World) (tr : List Action) (h : w.recv.stopped = true) :
    (w.exec tr).recv.stopped = true := by
  induction tr generalizing w with
  | nil => exact h
  | cons a rest ih => exact ih (w.step a) (step_stopped w a h)

/-- One action keeps the balance of frames: what was consumed and what is
pending afterwards is what was consumed and pending before, followed by the
frame the action committed, if it was accepted. -/
theorem step_balance (w : World) (a : Action) (rest : List Action) :
    (w.step a).consumed ++ (w.step a).recv.queue
        ++ accepted (w.step a).recv.stopped rest
      = w.consumed ++ w.recv.queue ++ accepted w.recv.stopped (a :: rest) := by
  cases hs : w.recv.stopped with
  | true =>
    have h1 := step_stopped w a hs
    rw [h1]
    have hacc : ∀ l, accepted true l = [] := by intro l; cases l <;> rfl
    rw [hacc, hacc]
    cases a with
    | frameCommitted index timestamp => simp [World.step, frameCommitted, hs]
    | stop => simp [World.step, stop, World.consumed]
    | receiveFrame buffer buffer_size timestamp =>
      cases hc : w.call <;> simp [World.step, hc, World.consumed]
    | resume =>
      cases hc : w.call with
      | none => simp [World.step, hc]
      | some a =>
        cases hp : a.pc with
        | pop =>
          cases hq : w.recv.queue <;>
            simp [World.step, hc, receiveFrame_step, hp, hq, World.consumed,
              List.filterMap_append]
        | check =>
          simp [World.step, hc, receiveFrame_step, hp, hs, World.consumed,
            List.filterMap_append]
  | false =>
    cases a with
    | frameCommitted index timestamp =>
      simp [World.step, frameCommitted, hs, accepted, World.consumed]
    | stop =>
      have hacc : ∀ l, accepted true l = [] := by intro l; cases l <;> rfl
      simp [World.step, stop, accepted, World.consumed, hacc]
    | receiveFrame buffer buffer_size timestamp =>
      cases hc : w.call <;> simp [World.step, hc, World.consumed, accepted, hs]
    | resume =>
      cases hc : w.call with
      | none => simp [World.step, hc, accepted, hs]
      | some a =>
        cases hp : a.pc with
        | pop =>
          cases hq : w.recv.queue <;>
            simp [World.step, hc, receiveFrame_step, hp, hq, World.consumed,
              List.filterMap_append, accepted, hs]
        | check =>
          simp [World.step, hc, receiveFrame_step, hp, hs, World.consumed,
            List.filterMap_append, accepted]

/-- The balance of frames over a whole interleaving. -/
theorem exec_balance (w : World) (tr : List Action) :
    (w.exec tr).consumed ++ (w.exec tr).recv.queue
      = w.consumed ++ w.recv.queue ++ accepted w.recv.stopped tr := by
  induction tr generalizing w with
  | nil =>
    have hacc : accepted w.recv.stopped [] = [] := by cases w.recv.stopped <;> rfl
    simp [World.exec, hacc]
  | cons a rest ih =>
    have h1 := ih (w.step a)
    have h2 := step_balance w a rest
    exact h1.trans h2

/-- What one action adds to the finished calls and to the packets written: a
finished call that popped a frame adds that frame's acknowledgement, and nothing
else is ever written. -/
theorem step_io (w : World) (a : Action) :
    ∃ new : List Returned,
      (w.step a).results = w.results ++ new
      ∧ (w.step a).recv.io = w.recv.io ++ (new.filterMap (fun res => res.info)).map ack
      ∧ (∀ res ∈ new, (res.info = none → res.ret = 0)
          ∧ (res.info ≠ none → res.ret = toInt res.buffer_size)) := by
  cases a with
  | frameCommitted index timestamp =>
    refine ⟨[], ?_⟩
    cases hs : w.recv.stopped <;> simp [World.step, frameCommitted, hs]
  | stop => exact ⟨[], by simp [World.step, stop]⟩
  | receiveFrame buffer buffer_size timestamp =>
    refine ⟨[], ?_⟩
    cases hc : w.call <;> simp [World.step, hc]
  | resume =>
    cases hc : w.call with
    | none => exact ⟨[], by simp [World.step, hc]⟩
    | some a =>
      cases hp : a.pc with
      | pop =>
        cases hq : w.recv.queue with
        | nil => exact ⟨[], by simp [World.step, hc, receiveFrame_step, hp, hq]⟩
        | cons info rest =>
          refine ⟨[{ ret := toInt a.buffer_size
                     buffer := memcpy a.buffer w.recv.mapped
                       (sourceOffset a.buffer_size info.index) a.buffer_size
                     timestamp := info.timestamp
                     buffer_size := a.buffer_size
                     info := some info }], ?_, ?_, ?_⟩
          · simp [World.step, hc, receiveFrame_step, hp, hq]
          · simp [World.step, hc, receiveFrame_step, hp, hq, ack]
          · simp
      | check =>
        cases hs : w.recv.stopped with
        | false => exact ⟨[], by simp [World.step, hc, receiveFrame_step, hp, hs]⟩
        | true =>
          refine ⟨[{ ret := 0
                     buffer := a.buffer
                     timestamp := a.timestamp
                     buffer_size := a.buffer_size
                     info := none }], ?_, ?_, ?_⟩
          · simp [World.step, hc, receiveFrame_step, hp, hs]
          · simp [World.step, hc, receiveFrame_step, hp, hs]
          · simp

/-- The finished calls and the packets written over a whole interleaving. -/
theorem exec_io (w : World) (tr : List Action) :
    ∃ new : List Returned,
      (w.exec tr).results = w.results ++ new
      ∧ (w.exec tr).recv.io = w.recv.io ++ (new.filterMap (fun res => res.info)).map ack
      ∧ (∀ res ∈ new, (res.info = none → res.ret = 0)
          ∧ (res.info ≠ none → res.ret = toInt res.buffer_size)) := by
  induction tr generalizing w with
  | nil => exact ⟨[], by simp [World.exec]⟩
  | cons a rest ih =>
    obtain ⟨n1, hr1, hio1, hret1⟩ := step_io w a
    obtain ⟨n2, hr2, hio2, hret2⟩ := ih (w.step a)
    refine ⟨n1 ++ n2, ?_, ?_, ?_⟩
    · simp [World.exec, hr2, hr1]
    · simp [World.exec, hio2, hio1, List.filterMap_append]
    · intro res hres
      rcases List.mem_append.mp hres with h | h
      · exact hret1 res h
      · exact hret2 res h

/-- After `stop`, dropping the later `frameCommitted` calls from an interleaving
changes nothing. -/
theorem exec_filter_commits (w : World) (tr : List Action) (hs : w.recv.stopped = true) :
    w.exec tr = w.exec (tr.filter (fun a => !a.isCommit)) := by
  induction tr generalizing w with
  | nil => rfl
  | cons a rest ih =>
    cases a with
    | frameCommitted index timestamp =>
      have hstep : w.step (Action.frameCommitted index timestamp) = w := by
        simp [World.step, frameCommitted, hs]
      simp only [World.exec, hstep, List.filter, Action.isCommit, Bool.not_true]
      exact ih w hs
    | stop =>
      simp only [World.exec, List.filter, Action.isCommit, Bool.not_false]
      exact ih _ (step_stopped w _ hs)
    | receiveFrame buffer buffer_size timestamp =>
      simp only [World.exec, List.filter, Action.isCommit, Bool.not_false]
      exact ih _ (step_stopped w _ hs)
    | resume =>
      simp only [World.exec, List.filter, Action.isCommit, Bool.not_false]
      exact ih _ (step_stopped w _ hs)

theorem toInt_of_lt (n : Nat) (h : n < 2 ^ 31) : toInt n = (n : Int) := by
  have hmod : n % 2 ^ 32 = n := Nat.mod_eq_of_lt (by omega)
  simp only [toInt, INT_BITS, hmod]
  rw [if_pos (by simpa using h)]

/-- The sizes recorded with the finished calls are those of the calls made:
what holds of the size of every call made holds of the size recorded with
every finished call. -/
theorem exec_sizes (P : Nat → Prop) (w : World) (tr : List Action)
    (htr : ∀ a ∈ tr, ∀ buffer buffer_size timestamp,
      a = Action.receiveFrame buffer buffer_size timestamp → P buffer_size)
    (hcall : ∀ a, w.call = some a → P a.buffer_size)
    (hres : ∀ res ∈ w.results, P res.buffer_size) :
    ∀ res ∈ (w.exec tr).results, P res.buffer_size := by
  induction tr generalizing w with
  | nil => exact hres
  | cons a rest ih =>
    have hrest : ∀ b ∈ rest, ∀ buffer buffer_size timestamp,
        b = Action.receiveFrame buffer buffer_size timestamp → P buffer_size :=
      fun b hb => htr b (List.mem_cons_of_mem a hb)
    have ha := htr a (List.mem_cons_self a rest)
    apply ih (w.step a) hrest
    · intro b hb
      cases a with
      | frameCommitted index timestamp => exact hcall b (by simpa [World.step] using hb)
      | stop => exact hcall b (by simpa [World.step] using hb)
      | receiveFrame buffer buffer_size timestamp =>
        cases hc : w.call with
        | some c => exact hcall b (by simpa [World.step, hc] using hb)
        | none =>
          simp [World.step, hc, enter] at hb
          subst hb
          exact ha buffer buffer_size timestamp rfl
      | resume =>
        cases hc : w.call with
        | none => simp [World.step, hc] at hb
        | some c =>
          have hcz := hcall c hc
          cases hp : c.pc with
          | pop =>
            cases hq : w.recv.queue with
            | nil =>
              simp [World.step, hc, receiveFrame_step, hp, hq] at hb
              subst hb
              exact hcz
            | cons info tl => simp [World.step, hc, receiveFrame_step, hp, hq] at hb
          | check =>
            cases hs : w.recv.stopped with
            | true => simp [World.step, hc, receiveFrame_step, hp, hs] at hb
            | false =>
              simp [World.step, hc, receiveFrame_step, hp, hs] at hb
              subst hb
              exact hcz
    · intro res hr
      cases a with
      | frameCommitted index timestamp => exact hres res (by simpa [World.step] using hr)
      | stop => exact hres res (by simpa [World.step] using hr)
      | receiveFrame buffer buffer_size timestamp =>
        cases hc : w.call <;> exact hres res (by simpa [World.step, hc] using hr)
      | resume =>
        cases hc : w.call with
        | none => exact hres res (by simpa [World.step, hc] using hr)
        | some c =>
          have hcz := hcall c hc
          cases hp : c.pc with
          | pop =>
            cases hq : w.recv.queue with
            | nil => exact hres res (by simpa [World.step, hc, receiveFrame_step, hp, hq] using hr)
            | cons info tl =>
              simp [World.step, hc, receiveFrame_step, hp, hq] at hr
              rcases hr with hr | hr
              · exact hres res hr
              · subst hr; exact hcz
          | check =>
            cases hs : w.recv.stopped with
            | false =>
              exact hres res (by simpa [World.step, hc, receiveFrame_step, hp, hs] using hr)
            | true =>
              simp [World.step, hc, receiveFrame_step, hp, hs] at hr
              rcases hr with hr | hr
              · exact hres res hr
              · subst hr; exact hcz

/-- Counting the calls by their return value or by the frame they popped gives
the same number when the return value tells the two exits apart, which it does
for a size that is not zero and fits an `int`. -/
theorem countP_ret_eq (l : List Returned)
    (h : ∀ res ∈ l, (res.info = none → res.ret = 0)
      ∧ (res.info ≠ none → res.ret = toInt res.buffer_size))
    (hz : ∀ res ∈ l, 0 < res.buffer_size ∧ res.buffer_size < 2 ^ 31) :
    l.countP (fun res => res.ret == (res.buffer_size : Int))
      = (l.filterMap (fun res => res.info)).length := by
  induction l with
  | nil => rfl
  | cons x rest ih =>
    have ih1 := ih (fun res hr => h res (List.mem_cons_of_mem x hr))
      (fun res hr => hz res (List.mem_cons_of_mem x hr))
    have hx := h x (List.mem_cons_self x rest)
    have hxz := hz x (List.mem_cons_self x rest)
    cases hi : x.info with
    | none =>
      have h0 : x.ret = 0 := hx.1 hi
      have hne : ¬ ((x.ret == (x.buffer_size : Int)) = true) := by
        rw [beq_iff_eq, h0]
        intro hcontra
        have : (x.buffer_size : Int) = 0 := hcontra.symm
        omega
      rw [List.countP_cons, List.filterMap_cons_none hi, ih1, if_neg hne]
      rfl
    | some i =>
      have h1 : (x.ret == (x.buffer_size : Int)) = true := by
        rw [beq_iff_eq, hx.2 (by simp [hi]), toInt_of_lt _ hxz.2]
      rw [List.countP_cons, List.filterMap_cons_some hi, ih1, if_pos h1]
      rfl

theorem accepted_true (l : List Action) : accepted true l = [] := by
  cases l <;> rfl

theorem accepted_append_stop (s : Bool) (pre post : List Action) :
    accepted s (pre ++ Action.stop :: post) = accepted s pre := by
  cases s with
  | true => rw [accepted_true, accepted_true]
  | false =>
    induction pre with
    | nil => rfl
    | cons a rest ih => cases a <;> simp [accepted, ih]

end VideoReceiver

/-! ## Facts about the main loop -/

namespace capsule

namespace MainLoop

theorem loop_exec_append (m : MainLoop) (xs ys : List Action) :
    m.exec (xs ++ ys) = (m.exec xs).bind (fun m1 => m1.exec ys) := by
  induction xs generalizing m with
  | nil => rfl
  | cons a rest ih =>
    simp only [List.cons_append, exec]
    cases h : m.step a with
    | none => rfl
    | some m1 => simpa using ih m1

theorem SessionMove.refl_of (m m1 : MainLoop) (hc : ∀ c ∈ m.calls, c ∈ m1.calls)
    (hs : m1.session_ = m.session_) (ho : m1.old_sessions_ = m.old_sessions_)
    (hh : m1.heap = m.heap) : SessionMove m m1 :=
  ⟨hc, Or.inl ⟨hs, ho, hh⟩⟩

theorem SessionMove.trans_same (m m1 m2 : MainLoop) (h : SessionMove m m1)
    (hc : ∀ c ∈ m1.calls, c ∈ m2.calls)
    (hs : m2.session_ = m1.session_) (ho : m2.old_sessions_ = m1.old_sessions_)
    (hh : m2.heap = m1.heap) : SessionMove m m2 := by
  obtain ⟨hcalls, hcase⟩ := h
  refine ⟨fun c hcm => hc c (hcalls c hcm), ?_⟩
  rcases hcase with ⟨a, b, c⟩ | ⟨p, a, b, c, d, e⟩ | ⟨a, b, c, d⟩
  · exact Or.inl ⟨hs.trans a, ho.trans b, hh.trans c⟩
  · exact Or.inr (Or.inl ⟨p, a, hs.trans b, ho.trans c, hh.trans d, hc _ e⟩)
  · exact Or.inr (Or.inr ⟨a, hs.trans b, ho.trans c, by rw [hh]; exact d⟩)

theorem EndSession_move (m : MainLoop) : SessionMove m m.EndSession := by
  cases hs : m.session_ with
  | none =>
    have : m.EndSession = m := by simp [EndSession, hs]
    rw [this]
    exact SessionMove.refl_of m m (fun _ h => h) rfl rfl rfl
  | some p =>
    refine ⟨?_, Or.inr (Or.inl ⟨p, hs, ?_, ?_, ?_, ?_⟩)⟩ <;> simp [EndSession, hs]
    intro a b h
    exact Or.inl h

theorem CaptureStop_move (m : MainLoop) : SessionMove m m.CaptureStop :=
  SessionMove.trans_same m m.EndSession m.CaptureStop (EndSession_move m)
    (fun _ h => h) rfl rfl rfl

theorem CaptureStart_move (m m1 : MainLoop) (h : m.CaptureStart = some m1) :
    SessionMove m m1 := by
  unfold CaptureStart at h
  cases hb : m.best_conn_ with
  | some conn =>
    simp [hb] at h
    subst h
    exact SessionMove.refl_of _ _ (fun _ h => h) rfl rfl rfl
  | none =>
    cases hc : m.conns_ with
    | nil => simp [hb, hc] at h
    | cons conn rest =>
      simp [hb, hc] at h
      subst h
      exact SessionMove.refl_of _ _ (fun _ h => h) rfl rfl rfl

theorem StartSession_move (ret : Int) (m : MainLoop) (vs : messages.VideoSetup)
    (conn : Connection) : SessionMove m (m.StartSession ret vs conn) := by
  unfold StartSession
  cases hs : m.session_ with
  | some p => exact SessionMove.refl_of _ _ (fun _ h => h) rfl rfl rfl
  | none =>
    simp only
    split
    · exact SessionMove.refl_of _ _ (fun _ h => h) rfl rfl rfl
    · split
      · exact SessionMove.refl_of _ _ (fun _ h => h) hs.symm rfl rfl
      · refine ⟨?_, Or.inr (Or.inr ⟨hs, rfl, rfl, by simp⟩)⟩
        intro c hc
        simp [hc]

theorem Dispatch_move (ret : Int) (m m1 : MainLoop) (msg : LoopMessage)
    (h : Dispatch ret m msg = some m1) : SessionMove m m1 := by
  unfold Dispatch at h
  cases hb : msg.buf with
  | HotkeyPressed =>
    simp only [hb] at h
    unfold CaptureFlip at h
    cases hs : m.session_ with
    | some p =>
      simp [hs] at h
      subst h
      exact CaptureStop_move m
    | none =>
      simp [hs] at h
      exact CaptureStart_move m m1 h
  | CaptureStop =>
    simp [hb] at h
    subst h
    exact CaptureStop_move m
  | VideoSetup vs =>
    simp [hb] at h
    subst h
    exact StartSession_move ret m vs msg.conn
  | VideoFrameCommitted index timestamp =>
    simp only [hb] at h
    split at h
    · simp at h
      subst h
      exact SessionMove.refl_of _ _ (fun c hc => by simp [hc]) rfl rfl rfl
    · simp at h
      subst h
      exact SessionMove.refl_of _ _ (fun _ h => h) rfl rfl rfl
  | AudioFramesCommitted offset frames =>
    simp only [hb] at h
    split at h
    · simp at h
      subst h
      exact SessionMove.refl_of _ _ (fun c hc => by simp [hc]) rfl rfl rfl
    · simp at h
      subst h
      exact SessionMove.refl_of _ _ (fun _ h => h) rfl rfl rfl
  | SawBackend backend =>
    simp [hb] at h
    subst h
    exact SessionMove.refl_of _ _ (fun _ h => h) rfl rfl rfl
  | Other t =>
    simp [hb] at h
    subst h
    exact SessionMove.refl_of _ _ (fun _ h => h) rfl rfl rfl

theorem Run_cycle_move (ret : Int) (m m1 : MainLoop) (h : m.Run_cycle ret = some m1) :
    SessionMove m m1 := by
  unfold Run_cycle at h
  cases hq : m.queue_ with
  | cons msg rest =>
    simp only [hq] at h
    have := Dispatch_move ret _ m1 msg h
    exact this
  | nil =>
    simp only [hq] at h
    split at h
    · simp at h
      subst h
      exact SessionMove.trans_same m m.EndSession _ (EndSession_move m)
        (fun c hc => by simp [JoinSessions, hc]) rfl rfl rfl
    · simp at h
      subst h
      exact SessionMove.refl_of _ _ (fun _ h => h) rfl rfl rfl

theorem step_move (m m1 : MainLoop) (a : Action) (h : m.step a = some m1) :
    SessionMove m m1 := by
  cases a with
  | AddConnection conn =>
    simp [step] at h
    subst h
    exact SessionMove.refl_of _ _ (fun _ h => h) rfl rfl rfl
  | Read conn buf =>
    simp only [step] at h
    split at h <;>
      (simp at h; subst h; exact SessionMove.refl_of _ _ (fun _ h => h) rfl rfl rfl)
  | Eof conn =>
    simp only [step] at h
    split at h <;>
      (simp at h; subst h; exact SessionMove.refl_of _ _ (fun _ h => h) rfl rfl rfl)
  | Cycle ret =>
    simp only [step] at h
    split at h
    · simp at h
      subst h
      exact SessionMove.refl_of _ _ (fun _ h => h) rfl rfl rfl
    · exact Run_cycle_move ret m m1 h

theorem exec_concat (m m1 : MainLoop) (xs : List Action) (a : Action)
    (h : m.exec (xs ++ [a]) = some m1) :
    ∃ mx, m.exec xs = some mx ∧ mx.step a = some m1 := by
  rw [loop_exec_append] at h
  cases hx : m.exec xs with
  | none => simp [hx] at h
  | some mx =>
    refine ⟨mx, rfl, ?_⟩
    simp only [hx, Option.some_bind, exec] at h
    cases hs : mx.step a with
    | none => simp [hs] at h
    | some m2 =>
      simp [hs] at h
      rw [h]

/-- A move keeps the bookkeeping invariant, and an old session of the new
state was old or current in the state before. -/
theorem SessionsOk_move (m m1 : MainLoop) (hm : SessionMove m m1) (h : SessionsOk m) :
    SessionsOk m1
      ∧ ∀ p ∈ m1.old_sessions_, p ∈ m.old_sessions_ ∨ m.session_ = some p := by
  obtain ⟨ha, hb, hc, hd, he⟩ := h
  obtain ⟨hcalls, hcase⟩ := hm
  rcases hcase with ⟨hs, ho, hh⟩ | ⟨p, hs, hs1, ho, hh, hstop⟩ | ⟨hs, hs1, ho, hh⟩
  · refine ⟨⟨?_, ?_, ?_, ?_, ?_⟩, ?_⟩
    · intro q hq
      rw [hh]
      exact ha q (hs ▸ hq)
    · intro q hq
      rw [hh]
      exact hb q (ho ▸ hq)
    · intro q hq
      rw [ho]
      exact hc q (hs ▸ hq)
    · rw [ho]
      exact hd
    · intro q hq
      exact hcalls _ (he q (ho ▸ hq))
    · intro q hq
      exact Or.inl (ho ▸ hq)
  · refine ⟨⟨?_, ?_, ?_, ?_, ?_⟩, ?_⟩
    · intro q hq
      rw [hs1] at hq
      cases hq
    · intro q hq
      rw [hh]
      rw [ho] at hq
      rcases List.mem_append.mp hq with h1 | h1
      · exact hb q h1
      · have : q = p := by simpa using h1
        rw [this]
        exact ha p hs
    · intro q hq
      rw [hs1] at hq
      cases hq
    · rw [ho]
      refine List.Nodup.append hd (List.nodup_singleton p) ?_
      intro q hq1 hq2
      have : q = p := by simpa using hq2
      rw [this] at hq1
      exact hc p hs hq1
    · intro q hq
      rw [ho] at hq
      rcases List.mem_append.mp hq with h1 | h1
      · exact hcalls _ (he q h1)
      · have : q = p := by simpa using h1
        rw [this]
        exact hstop
    · intro q hq
      rw [ho] at hq
      rcases List.mem_append.mp hq with h1 | h1
      · exact Or.inl h1
      · have : q = p := by simpa using h1
        rw [this]
        exact Or.inr hs
  · refine ⟨⟨?_, ?_, ?_, ?_, ?_⟩, ?_⟩
    · intro q hq
      rw [hs1] at hq
      have hq1 : m.heap.length = q := by simpa using hq
      rw [hh, ← hq1]
      exact Nat.lt_succ_self _
    · intro q hq
      have hlt := hb q (ho ▸ hq)
      rw [hh]
      exact Nat.lt_succ_of_lt hlt
    · intro q hq
      rw [hs1] at hq
      have hq1 : m.heap.length = q := by simpa using hq
      rw [ho]
      intro hmem
      have hlt := hb q hmem
      rw [← hq1] at hlt
      exact Nat.lt_irrefl _ hlt
    · rw [ho]
      exact hd
    · intro q hq
      exact hcalls _ (he q (ho ▸ hq))
    · intro q hq
      exact Or.inl (ho ▸ hq)

/-- The bookkeeping invariant holds along every interleaving that starts
without a session, and every old session was current at an earlier point. -/
theorem exec_sessions (m0 : MainLoop) (h0 : m0.session_ = none)
    (h1 : m0.old_sessions_ = []) (tr : List Action) :
    ∀ m, m0.exec tr = some m →
      SessionsOk m
        ∧ ∀ p ∈ m.old_sessions_, ∃ pre post m1,
            tr = pre ++ post ∧ post ≠ [] ∧ m0.exec pre = some m1 ∧ m1.session_ = some p := by
  induction tr using List.reverseRecOn with
  | nil =>
    intro m h
    simp only [exec, Option.some.injEq] at h
    subst h
    refine ⟨⟨?_, ?_, ?_, ?_, ?_⟩, ?_⟩ <;> simp [h0, h1]
  | append_singleton xs a ih =>
    intro m h
    obtain ⟨mx, hx, hstep⟩ := exec_concat m0 m xs a h
    obtain ⟨hok, hhist⟩ := ih mx hx
    obtain ⟨hok1, hold⟩ := SessionsOk_move mx m (step_move mx m a hstep) hok
    refine ⟨hok1, ?_⟩
    intro p hp
    rcases hold p hp with hin | hcur
    · obtain ⟨pre, post, m1, htr, hne, hpre, hses⟩ := hhist p hin
      refine ⟨pre, post ++ [a], m1, ?_, by simp, hpre, hses⟩
      rw [htr, List.append_assoc]
    · exact ⟨xs, [a], mx, rfl, by simp, hx, hcur⟩

theorem EndSession_frame (m : MainLoop) :
    m.EndSession.conns_ = m.conns_ ∧ m.EndSession.queue_ = m.queue_
      ∧ m.EndSession.pollers = m.pollers ∧ m.EndSession.dispatched = m.dispatched
      ∧ m.EndSession.best_conn_ = m.best_conn_ ∧ m.EndSession.written = m.written := by
  unfold EndSession
  cases m.session_ <;> simp

theorem CaptureStop_frame (m : MainLoop) :
    m.CaptureStop.conns_ = m.conns_ ∧ m.CaptureStop.queue_ = m.queue_
      ∧ m.CaptureStop.pollers = m.pollers ∧ m.CaptureStop.dispatched = m.dispatched
      ∧ m.CaptureStop.best_conn_ = m.best_conn_ := by
  obtain ⟨h1, h2, h3, h4, h5, _⟩ := EndSession_frame m
  exact ⟨h1, h2, h3, h4, h5⟩

theorem CaptureStart_frame (m m1 : MainLoop) (h : m.CaptureStart = some m1) :
    m1.conns_ = m.conns_ ∧ m1.queue_ = m.queue_
      ∧ m1.pollers = m.pollers ∧ m1.dispatched = m.dispatched
      ∧ m1.best_conn_ = m.best_conn_ := by
  unfold CaptureStart at h
  cases hb : m.best_conn_ with
  | some conn =>
    simp [hb] at h
    subst h
    simp [hb]
  | none =>
    cases hc : m.conns_ with
    | nil => simp [hb, hc] at h
    | cons conn rest =>
      simp [hb, hc] at h
      subst h
      simp [hb, hc]

theorem StartSession_frame (ret : Int) (m : MainLoop) (vs : messages.VideoSetup)
    (conn : Connection) :
    (m.StartSession ret vs conn).conns_ = m.conns_
      ∧ (m.StartSession ret vs conn).queue_ = m.queue_
      ∧ (m.StartSession ret vs conn).pollers = m.pollers
      ∧ (m.StartSession ret vs conn).dispatched = m.dispatched
      ∧ (m.StartSession ret vs conn).best_conn_ = m.best_conn_ := by
  unfold StartSession
  cases m.session_ with
  | some p => simp
  | none =>
    simp only
    split
    · simp
    · split <;> simp

theorem Dispatch_frame (ret : Int) (m m1 : MainLoop) (msg : LoopMessage)
    (h : Dispatch ret m msg = some m1) :
    m1.conns_ = m.conns_ ∧ m1.queue_ = m.queue_
      ∧ m1.pollers = m.pollers ∧ m1.dispatched = m.dispatched
      ∧ m1.best_conn_ = lastSawBackend_or m.best_conn_ msg := by
  unfold Dispatch at h
  unfold lastSawBackend_or
  cases hb : msg.buf with
  | HotkeyPressed =>
    simp only [hb] at h
    unfold CaptureFlip at h
    cases hs : m.session_ with
    | some p =>
      simp [hs] at h
      subst h
      exact CaptureStop_frame m
    | none =>
      simp [hs] at h
      exact CaptureStart_frame m m1 h
  | CaptureStop =>
    simp [hb] at h
    subst h
    exact CaptureStop_frame m
  | VideoSetup vs =>
    simp [hb] at h
    subst h
    exact StartSession_frame ret m vs msg.conn
  | VideoFrameCommitted index timestamp =>
    simp only [hb] at h
    split at h <;> (simp at h; subst h; simp)
  | AudioFramesCommitted offset frames =>
    simp only [hb] at h
    split at h <;> (simp at h; subst h; simp)
  | SawBackend backend =>
    simp [hb] at h
    subst h
    simp
  | Other t =>
    simp [hb] at h
    subst h
    simp

theorem added_append (xs ys : List Action) : added (xs ++ ys) = added xs ++ added ys := by
  induction xs with
  | nil => rfl
  | cons a rest ih => cases a <;> simp [added, ih]

theorem lastSawBackend_concat (l : List LoopMessage) (msg : LoopMessage) :
    lastSawBackend (l ++ [msg]) = lastSawBackend_or (lastSawBackend l) msg := by
  induction l with
  | nil =>
    simp only [List.nil_append, lastSawBackend, lastSawBackend_or]
    cases msg.buf <;> rfl
  | cons x rest ih =>
    have ih1 : lastSawBackend (rest.append [msg])
        = lastSawBackend_or (lastSawBackend rest) msg := ih
    simp only [List.cons_append, lastSawBackend]
    rw [ih1]
    generalize lastSawBackend rest = r
    unfold lastSawBackend_or
    cases msg.buf <;> cases x.buf <;> cases r <;> rfl

theorem Run_cycle_conns (ret : Int) (m m1 : MainLoop) (h : m.Run_cycle ret = some m1) :
    m1.conns_ = m.conns_ ∧ m1.pollers = m.pollers
      ∧ ((m1.queue_ = m.queue_ ∧ m1.dispatched = m.dispatched ∧ m1.best_conn_ = m.best_conn_)
        ∨ ∃ msg, m.queue_ = msg :: m1.queue_ ∧ m1.dispatched = m.dispatched ++ [msg]
            ∧ m1.best_conn_ = lastSawBackend_or m.best_conn_ msg) := by
  unfold Run_cycle at h
  cases hq : m.queue_ with
  | cons msg rest =>
    simp only [hq] at h
    obtain ⟨h1, h2, h3, h4, h5⟩ := Dispatch_frame ret _ m1 msg h
    refine ⟨h1, h3, Or.inr ⟨msg, ?_, h4, h5⟩⟩
    rw [h2]
  | nil =>
    simp only [hq] at h
    split at h
    · simp at h
      subst h
      obtain ⟨h1, h2, h3, h4, h5, _⟩ := EndSession_frame m
      exact ⟨h1, h3, Or.inl ⟨by simpa [JoinSessions, hq] using h2, h4, h5⟩⟩
    · simp at h
      subst h
      exact ⟨rfl, rfl, Or.inl ⟨hq, rfl, rfl⟩⟩

/-- What one action does to the connections, the queue and the preferred
connection. -/
theorem step_conns (m m1 : MainLoop) (a : Action) (h : m.step a = some m1) :
    (∀ c ∈ m1.pollers, c ∈ m.pollers ∨ a = Action.AddConnection c)
      ∧ (∀ msg ∈ m1.queue_, msg ∈ m.queue_ ∨ msg.conn ∈ m.pollers)
      ∧ (∀ c, m1.best_conn_ = some c →
          m.best_conn_ = some c ∨ ∃ msg ∈ m.queue_, msg.conn = c)
      ∧ (∀ c ∈ m.conns_, c ∈ m1.conns_ ∨ a = Action.Eof c)
      ∧ (∀ c, a = Action.AddConnection c → c ∈ m1.conns_)
      ∧ m1.conns_.Sublist (m.conns_ ++ added [a])
      ∧ (m.best_conn_ = lastSawBackend m.dispatched →
          m1.best_conn_ = lastSawBackend m1.dispatched) := by
  cases a with
  | AddConnection conn =>
    simp [step] at h
    subst h
    simp only [AddConnection, added]
    refine ⟨?_, ?_, ?_, ?_, ?_, ?_, ?_⟩
    · intro c hc
      rcases List.mem_append.mp hc with h1 | h1
      · exact Or.inl h1
      · have : c = conn := by simpa using h1
        exact Or.inr (by rw [this])
    · intro msg hmsg
      exact Or.inl hmsg
    · intro c hc
      exact Or.inl hc
    · intro c hc
      exact Or.inl (List.mem_append_left _ hc)
    · intro c hc
      have : conn = c := by simpa using hc
      simp [this]
    · exact List.Sublist.refl _
    · exact fun hb => hb
  | Read conn buf =>
    simp only [step] at h
    split at h
    · rename_i hp
      simp at h
      subst h
      simp only [PollConnection_push, added]
      refine ⟨fun c hc => Or.inl hc, ?_, fun c hc => Or.inl hc, fun c hc => Or.inl hc, ?_,
        by simp, fun hb => hb⟩
      · intro msg hmsg
        rcases List.mem_append.mp hmsg with h1 | h1
        · exact Or.inl h1
        · have : msg = { conn := conn, buf := buf } := by simpa using h1
          rw [this]
          exact Or.inr hp
      · intro c hc
        cases hc
    · simp at h
      subst h
      refine ⟨fun c hc => Or.inl hc, fun c hc => Or.inl hc, fun c hc => Or.inl hc,
        fun c hc => Or.inl hc, ?_, by simp [added], fun hb => hb⟩
      intro c hc
      cases hc
  | Eof conn =>
    simp only [step] at h
    split at h
    · simp at h
      subst h
      simp only [PollConnection_cull, added]
      refine ⟨?_, fun c hc => Or.inl hc, fun c hc => Or.inl hc, ?_, ?_, ?_, fun hb => hb⟩
      · intro c hc
        exact Or.inl (List.mem_of_mem_erase hc)
      · intro c hc
        by_cases hcc : c = conn
        · exact Or.inr (by rw [hcc])
        · exact Or.inl (List.mem_filter.mpr ⟨hc, by simpa using hcc⟩)
      · intro c hc
        cases hc
      · simp only [List.append_nil]
        exact List.filter_sublist _
    · simp at h
      subst h
      refine ⟨fun c hc => Or.inl hc, fun c hc => Or.inl hc, fun c hc => Or.inl hc,
        fun c hc => Or.inl hc, ?_, by simp [added], fun hb => hb⟩
      intro c hc
      cases hc
  | Cycle ret =>
    simp only [step] at h
    split at h
    · simp at h
      subst h
      refine ⟨fun c hc => Or.inl hc, fun c hc => Or.inl hc, fun c hc => Or.inl hc,
        fun c hc => Or.inl hc, ?_, by simp [added], fun hb => hb⟩
      intro c hc
      cases hc
    · obtain ⟨hc1, hp1, hcase⟩ := Run_cycle_conns ret m m1 h
      refine ⟨?_, ?_, ?_, ?_, ?_, ?_, ?_⟩
      · intro c hc
        exact Or.inl (hp1 ▸ hc)
      · intro msg hmsg
        rcases hcase with ⟨hq, _, _⟩ | ⟨x, hq, _, _⟩
        · exact Or.inl (hq ▸ hmsg)
        · exact Or.inl (by rw [hq]; exact List.mem_cons_of_mem _ hmsg)
      · intro c hc
        rcases hcase with ⟨_, _, hb⟩ | ⟨x, hq, _, hb⟩
        · exact Or.inl (hb ▸ hc)
        · rw [hb] at hc
          unfold lastSawBackend_or at hc
          split at hc
          · refine Or.inr ⟨x, by rw [hq]; exact List.mem_cons_self _ _, ?_⟩
            simpa using hc
          · exact Or.inl hc
      · intro c hc
        exact Or.inl (hc1 ▸ hc)
      · intro c hc
        cases hc
      · rw [hc1]
        simp [added]
      · intro hbest
        rcases hcase with ⟨_, hd, hb⟩ | ⟨x, _, hd, hb⟩
        · rw [hb, hd]
          exact hbest
        · rw [hb, hd, lastSawBackend_concat, hbest]

theorem mem_added_singleton (a : Action) (c : Connection) (h : c ∈ added [a]) :
    a = Action.AddConnection c := by
  cases a with
  | AddConnection conn =>
    have : c = conn := by simpa [added] using h
    rw [this]
  | Read conn buf => simp [added] at h
  | Eof conn => simp [added] at h
  | Cycle ret => simp [added] at h

/-- Along every interleaving from the initial state: the reading threads, the
senders of queued messages and the preferred connection have all been added; an
added connection is still listed unless its thread has ended; `conns_` keeps
the order of insertion; and the preferred connection is that of the latest
`SawBackend` dispatched. -/
theorem exec_conns (args : MainArgs) (factory : Option (Unit → Option audio.AudioReceiver))
    (tr : List Action) :
    ∀ m, (init args factory).exec tr = some m →
      (∀ c ∈ m.pollers, c ∈ added tr)
        ∧ (∀ msg ∈ m.queue_, msg.conn ∈ added tr)
        ∧ (∀ c, m.best_conn_ = some c → c ∈ added tr)
        ∧ (∀ c ∈ added tr, c ∈ m.conns_ ∨ Action.Eof c ∈ tr)
        ∧ m.conns_.Sublist (added tr)
        ∧ m.best_conn_ = lastSawBackend m.dispatched := by
  induction tr using List.reverseRecOn with
  | nil =>
    intro m h
    simp only [exec, Option.some.injEq] at h
    subst h
    simp [init, added, lastSawBackend]
  | append_singleton xs a ih =>
    intro m h
    obtain ⟨mx, hx, hstep⟩ := exec_concat _ m xs a h
    obtain ⟨i1, i2, i3, i4, i5, i6⟩ := ih mx hx
    obtain ⟨s1, s2, s3, s4, s5, s6, s7⟩ := step_conns mx m a hstep
    rw [added_append]
    refine ⟨?_, ?_, ?_, ?_, ?_, s7 i6⟩
    · intro c hc
      rcases s1 c hc with h1 | h1
      · exact List.mem_append_left _ (i1 c h1)
      · rw [h1]
        simp [added]
    · intro msg hmsg
      rcases s2 msg hmsg with h1 | h1
      · exact List.mem_append_left _ (i2 msg h1)
      · exact List.mem_append_left _ (i1 _ h1)
    · intro c hc
      rcases s3 c hc with h1 | ⟨msg, h1, h2⟩
      · exact List.mem_append_left _ (i3 c h1)
      · rw [← h2]
        exact List.mem_append_left _ (i2 msg h1)
    · intro c hc
      rcases List.mem_append.mp hc with h1 | h1
      · rcases i4 c h1 with h2 | h2
        · rcases s4 c h2 with h3 | h3
          · exact Or.inl h3
          · exact Or.inr (by rw [h3]; simp)
        · exact Or.inr (List.mem_append_left _ h2)
      · exact Or.inl (s5 c (mem_added_singleton a c h1))
    · exact s6.trans (List.Sublist.append i5 (List.Sublist.refl _))

theorem lastSawBackend_none (l : List LoopMessage)
    (h : ∀ x ∈ l, ∀ b, x.buf ≠ messages.Message.SawBackend b) : lastSawBackend l = none := by
  induction l with
  | nil => rfl
  | cons x rest ih =>
    have hrest := ih (fun y hy => h y (List.mem_cons_of_mem x hy))
    have hx := h x (List.mem_cons_self x rest)
    cases hb : x.buf with
    | SawBackend b => exact absurd hb (hx b)
    | _ => simp [lastSawBackend, hrest, hb]

theorem lastSawBackend_split (pre post : List LoopMessage) (msg : LoopMessage) (b : Nat)
    (hmsg : msg.buf = messages.Message.SawBackend b)
    (hpost : ∀ x ∈ post, ∀ b1, x.buf ≠ messages.Message.SawBackend b1) :
    lastSawBackend (pre ++ msg :: post) = some msg.conn := by
  induction pre with
  | nil => simp [lastSawBackend, lastSawBackend_none post hpost, hmsg]
  | cons x rest ih => simp [lastSawBackend, ih]

theorem CaptureStart_some (m : MainLoop) (c : Connection) (h : m.best_conn_ = some c) :
    m.CaptureStart = some { m with
      written := m.written ++ [(c, Packet.CaptureStart m.args_.fps m.args_.size_divider
        m.args_.gpu_color_conv)] } := by
  simp [CaptureStart, h]

theorem CaptureStart_front (m : MainLoop) (c : Connection) (rest : List Connection)
    (h : m.best_conn_ = none) (hc : m.conns_ = c :: rest) :
    m.CaptureStart = some { m with
      written := m.written ++ [(c, Packet.CaptureStart m.args_.fps m.args_.size_divider
        m.args_.gpu_color_conv)] } := by
  simp [CaptureStart, h, hc]

/-- The one way a step is undefined: the loop dispatches `HotkeyPressed` with no
session, no preferred connection and an empty `conns_`, so that `CaptureStart`
reads the front of an empty vector. -/
theorem step_eq_none_iff (m : MainLoop) (a : Action) :
    m.step a = none ↔
      ∃ ret msg rest, a = Action.Cycle ret ∧ m.returned = false ∧ m.queue_ = msg :: rest
        ∧ msg.buf = messages.Message.HotkeyPressed ∧ m.session_ = none
        ∧ m.best_conn_ = none ∧ m.conns_ = [] := by
  constructor
  · intro h
    cases a with
    | AddConnection conn => simp [step] at h
    | Read conn buf =>
      simp only [step] at h
      split at h <;> simp at h
    | Eof conn =>
      simp only [step] at h
      split at h <;> simp at h
    | Cycle ret =>
      simp only [step] at h
      cases hr : m.returned with
      | true => simp [hr] at h
      | false =>
        simp only [hr, Bool.false_eq_true, if_false] at h
        unfold Run_cycle at h
        cases hq : m.queue_ with
        | nil =>
          simp only [hq] at h
          split at h <;> simp at h
        | cons msg rest =>
          simp only [hq] at h
          unfold Dispatch at h
          cases hb : msg.buf with
          | HotkeyPressed =>
            simp only [hb] at h
            unfold CaptureFlip at h
            cases hs : m.session_ with
            | some p => simp [hs] at h
            | none =>
              simp only [hs] at h
              unfold CaptureStart at h
              cases hbest : m.best_conn_ with
              | some c => simp [hbest] at h
              | none =>
                cases hc : m.conns_ with
                | cons c tl => simp [hbest, hc] at h
                | nil => exact ⟨ret, msg, rest, rfl, rfl, rfl, hb, rfl, rfl, rfl⟩
          | CaptureStop => simp [hb] at h
          | VideoSetup vs => simp [hb] at h
          | VideoFrameCommitted index timestamp =>
            simp only [hb] at h
            split at h <;> simp at h
          | AudioFramesCommitted offset frames =>
            simp only [hb] at h
            split at h <;> simp at h
          | SawBackend backend => simp [hb] at h
          | Other t => simp [hb] at h
  · rintro ⟨ret, msg, rest, ha, hr, hq, hb, hs, hbest, hc⟩
    subst ha
    simp [step, hr, Run_cycle, hq, Dispatch, hb, CaptureFlip, hs, CaptureStart, hbest, hc]

theorem Dispatch_returned (ret : Int) (m m1 : MainLoop) (msg : LoopMessage)
    (h : Dispatch ret m msg = some m1) : m1.returned = m.returned := by
  unfold Dispatch at h
  cases hb : msg.buf with
  | HotkeyPressed =>
    simp only [hb] at h
    unfold CaptureFlip at h
    cases hs : m.session_ with
    | some p =>
      simp [hs] at h
      subst h
      simp only [CaptureStop, EndSession, hs]
    | none =>
      simp only [hs] at h
      unfold CaptureStart at h
      cases hbest : m.best_conn_ with
      | some c =>
        simp [hbest] at h
        subst h
        rfl
      | none =>
        cases hc : m.conns_ with
        | nil => simp [hbest, hc] at h
        | cons c tl =>
          simp [hbest, hc] at h
          subst h
          rfl
  | CaptureStop =>
    simp [hb] at h
    subst h
    unfold CaptureStop EndSession
    cases m.session_ <;> rfl
  | VideoSetup vs =>
    simp [hb] at h
    subst h
    unfold StartSession
    cases m.session_ with
    | some p => rfl
    | none =>
      simp only
      split
      · rfl
      · split <;> rfl
  | VideoFrameCommitted index timestamp =>
    simp only [hb] at h
    split at h <;> (simp at h; subst h; rfl)
  | AudioFramesCommitted offset frames =>
    simp only [hb] at h
    split at h <;> (simp at h; subst h; rfl)
  | SawBackend backend =>
    simp [hb] at h
    subst h
    rfl
  | Other t =>
    simp [hb] at h
    subst h
    rfl

/-- A step of a loop that has not returned makes it return exactly when it is
a cycle that finds no message and no connection; the state after is then the
one left by `EndSession` and `JoinSessions`. -/
theorem step_returns_iff (m m1 : MainLoop) (a : Action) (h : m.step a = some m1)
    (hr : m.returned = false) :
    (m1.returned = true ↔ ∃ ret, a = Action.Cycle ret ∧ m.queue_ = [] ∧ m.conns_ = [])
      ∧ (m1.returned = true → m1 = { m.EndSession.JoinSessions with returned := true }) := by
  cases a with
  | AddConnection conn =>
    simp [step] at h
    subst h
    simp [AddConnection, hr]
  | Read conn buf =>
    simp only [step] at h
    split at h <;> (simp at h; subst h; simp [PollConnection_push, hr])
  | Eof conn =>
    simp only [step] at h
    split at h <;> (simp at h; subst h; simp [PollConnection_cull, hr])
  | Cycle ret =>
    simp only [step, hr, Bool.false_eq_true, if_false] at h
    unfold Run_cycle at h
    cases hq : m.queue_ with
    | cons msg rest =>
      simp only [hq] at h
      have hret := Dispatch_returned ret _ m1 msg h
      simp only at hret
      simp [hret, hr]
    | nil =>
      simp only [hq] at h
      cases hc : m.conns_ with
      | nil =>
        simp [hc] at h
        subst h
        simp
      | cons c tl =>
        simp [hc] at h
        subst h
        simp [hr]

/-- Once `Run` has returned, no action touches the sessions or the record of
calls. -/
theorem step_after_return (m m1 : MainLoop) (a : Action) (h : m.step a = some m1)
    (hr : m.returned = true) :
    m1.returned = true ∧ m1.session_ = m.session_ ∧ m1.old_sessions_ = m.old_sessions_
      ∧ m1.heap = m.heap ∧ m1.calls = m.calls := by
  cases a with
  | AddConnection conn =>
    simp [step] at h
    subst h
    simp [AddConnection, hr]
  | Read conn buf =>
    simp only [step] at h
    split at h <;> (simp at h; subst h; simp [PollConnection_push, hr])
  | Eof conn =>
    simp only [step] at h
    split at h <;> (simp at h; subst h; simp [PollConnection_cull, hr])
  | Cycle ret =>
    simp [step, hr] at h
    subst h
    simp [hr]

/-- A move keeps every session object accounted for. -/
theorem AllAccounted_move (m m1 : MainLoop) (hm : SessionMove m m1) (h : AllAccounted m) :
    AllAccounted m1 := by
  obtain ⟨_, hcase⟩ := hm
  intro p hp
  rcases hcase with ⟨hs, ho, hh⟩ | ⟨q, hs, hs1, ho, hh, _⟩ | ⟨hs, hs1, ho, hh⟩
  · rw [hh] at hp
    rw [hs, ho]
    exact h p hp
  · rw [hh] at hp
    rw [ho]
    rcases h p hp with h1 | h1
    · right
      rw [hs] at h1
      have hpq : q = p := Option.some.inj h1
      rw [hpq]
      simp
    · exact Or.inr (List.mem_append_left _ h1)
  · rw [hh] at hp
    rw [hs1, ho]
    rcases Nat.lt_succ_iff_lt_or_eq.mp hp with h1 | h1
    · rcases h p h1 with h2 | h2
      · rw [hs] at h2
        cases h2
      · exact Or.inr h2
    · left
      rw [h1]

/-- What the two calls after the loop leave behind. -/
theorem Finished_on_exit (m : MainLoop) (hok : SessionsOk m) (hacc : AllAccounted m) :
    Finished { m.EndSession.JoinSessions with returned := true } := by
  have hmove := EndSession_move m
  obtain ⟨⟨_, _, _, _, hstop⟩, _⟩ := SessionsOk_move m m.EndSession hmove hok
  have hacc1 := AllAccounted_move m m.EndSession hmove hacc
  have hnone : m.EndSession.session_ = none := by
    unfold EndSession
    cases hs : m.session_ with
    | none => exact hs
    | some q => rfl
  refine ⟨hnone, ?_⟩
  intro p hp
  have hp1 : p < m.EndSession.heap.length := hp
  have hold : p ∈ m.EndSession.old_sessions_ := by
    rcases hacc1 p hp1 with h1 | h1
    · rw [hnone] at h1
      cases h1
    · exact h1
  refine ⟨hold, ?_⟩
  obtain ⟨a, b, hab⟩ := List.append_of_mem (hstop p hold)
  obtain ⟨l1, l2, hl⟩ := List.append_of_mem hold
  refine ⟨a, b ++ l1.map (fun session => (session, SessionCall.Join)),
    l2.map (fun session => (session, SessionCall.Join)), ?_⟩
  show m.EndSession.calls
      ++ m.EndSession.old_sessions_.map (fun session => (session, SessionCall.Join)) = _
  rw [hab, hl]
  simp

/-- Along every interleaving from the initial state every session object is
accounted for, and once `Run` has returned the run is finished. -/
theorem exec_exit (args : MainArgs) (factory : Option (Unit → Option audio.AudioReceiver))
    (tr : List Action) :
    ∀ m, (init args factory).exec tr = some m →
      AllAccounted m ∧ (m.returned = true → Finished m) := by
  induction tr using List.reverseRecOn with
  | nil =>
    intro m h
    simp only [exec, Option.some.injEq] at h
    subst h
    refine ⟨?_, ?_⟩
    · intro p hp
      simp [init] at hp
    · intro hr
      simp [init] at hr
  | append_singleton xs a ih =>
    intro m h
    obtain ⟨mx, hx, hstep⟩ := exec_concat _ m xs a h
    obtain ⟨hacc, hfin⟩ := ih mx hx
    have hok := (exec_sessions (init args factory) rfl rfl xs mx hx).1
    have hacc1 := AllAccounted_move mx m (step_move mx m a hstep) hacc
    refine ⟨hacc1, ?_⟩
    intro hr
    cases hrx : mx.returned with
    | true =>
      obtain ⟨_, h2, h3, h4, h5⟩ := step_after_return mx m a hstep hrx
      obtain ⟨f1, f2⟩ := hfin hrx
      refine ⟨h2.trans f1, ?_⟩
      intro p hp
      rw [h4] at hp
      obtain ⟨g1, a1, b1, c1, g2⟩ := f2 p hp
      exact ⟨h3 ▸ g1, a1, b1, c1, h5.trans g2⟩
    | false =>
      have hm := (step_returns_iff mx m a hstep hrx).2 hr
      rw [hm]
      exact Finished_on_exit mx hok hacc

end MainLoop

end capsule

/-! ## Facts about quoting -/

namespace quote

theorem unsigned_of_lt (n : Nat) (h : n < 2 ^ 32) : unsigned n = n :=
  Nat.mod_eq_of_lt h

/-- Inside an argument a run of backslashes only raises the count. -/
theorem argvScan_backslashes (ws : Char → Bool) (m : Nat) (tail : List Char)
    (inQuotes : Bool) (n : Nat) (acc : List Char) :
    argvScan ws (List.replicate m '\\' ++ tail) true inQuotes n acc
      = argvScan ws tail true inQuotes (n + m) acc := by
  induction m generalizing n with
  | zero => rfl
  | succ k ih =>
    rw [List.replicate_succ, List.cons_append]
    simp only [argvScan, Bool.not_true, Bool.false_and, Bool.false_eq_true, if_false, if_true]
    rw [ih (n + 1)]
    congr 1
    omega

/-- The text the loop writes for the rest of an argument, read back inside
quotes, gives the pending backslashes and that rest, as long as no counter
wraps. -/
theorem argvScan_loop (ws : Char → Bool) (rest : List Char) :
    ∀ (k : Nat) (acc : List Char), k + rest.length < 2 ^ 31 →
      argvScan ws (ArgvQuote_loop rest k ++ ['"']) true true 0 acc
        = [acc ++ List.replicate k '\\' ++ rest] := by
  induction rest with
  | nil =>
    intro k acc hk
    simp only [List.length_nil, Nat.add_zero] at hk
    have hu : unsigned (k * 2) = k * 2 := unsigned_of_lt _ (by omega)
    simp only [ArgvQuote_loop, hu]
    rw [argvScan_backslashes]
    have hdiv : (0 + k * 2) / 2 = k := by omega
    have hmod : (0 + k * 2) % 2 = 0 := by omega
    simp [argvScan, hdiv, hmod]
  | cons c r ih =>
    intro k acc hk
    simp only [List.length_cons] at hk
    by_cases hb : c = '\\'
    · subst hb
      have hu : unsigned (k + 1) = k + 1 := unsigned_of_lt _ (by omega)
      simp only [ArgvQuote_loop, if_true, hu]
      rw [ih (k + 1) acc (by omega), List.replicate_succ']
      simp
    · by_cases hq : c = '"'
      · subst hq
        have hu : unsigned (k * 2 + 1) = k * 2 + 1 := unsigned_of_lt _ (by omega)
        have hloop : ArgvQuote_loop ('"' :: r) k
            = List.replicate (k * 2 + 1) '\\' ++ '"' :: ArgvQuote_loop r 0 := by
          simp [ArgvQuote_loop, hu]
        have hdiv : (k * 2 + 1) / 2 = k := by omega
        have hmod : (k * 2 + 1) % 2 = 1 := by omega
        have hstep : argvScan ws ('"' :: (ArgvQuote_loop r 0 ++ ['"'])) true true
              (0 + (k * 2 + 1)) acc
            = argvScan ws (ArgvQuote_loop r 0 ++ ['"']) true true 0
                (acc ++ List.replicate k '\\' ++ ['"']) := by
          simp [argvScan, hdiv, hmod]
        rw [hloop, List.append_assoc, argvScan_backslashes, List.cons_append, hstep,
          ih 0 _ (by omega)]
        simp
      · have hloop : ArgvQuote_loop (c :: r) k
            = List.replicate k '\\' ++ c :: ArgvQuote_loop r 0 := by
          simp [ArgvQuote_loop, hb, hq]
        have hstep : argvScan ws (c :: (ArgvQuote_loop r 0 ++ ['"'])) true true (0 + k) acc
            = argvScan ws (ArgvQuote_loop r 0 ++ ['"']) true true 0
                (acc ++ List.replicate k '\\' ++ [c]) := by
          simp [argvScan, hb, hq]
        rw [hloop, List.append_assoc, argvScan_backslashes, List.cons_append, hstep,
          ih 0 _ (by omega)]
        simp

/-- An argument without special characters, read outside quotes, is read as
it stands. -/
theorem argvScan_plain (ws : Char → Bool)
    (hws : ∀ c, ws c = true → special c = true) (arg : List Char) :
    ∀ (n : Nat) (acc : List Char), (∀ c ∈ arg, special c = false) →
      argvScan ws arg true false n acc = [acc ++ List.replicate n '\\' ++ arg] := by
  induction arg with
  | nil =>
    intro n acc _
    simp [argvScan]
  | cons c r ih =>
    intro n acc hsp
    have hc : special c = false := hsp c (List.mem_cons_self c r)
    have hr : ∀ d ∈ r, special d = false := fun d hd => hsp d (List.mem_cons_of_mem c hd)
    have hwsc : ws c = false := by
      cases h : ws c with
      | false => rfl
      | true => rw [hws c h] at hc; cases hc
    by_cases hb : c = '\\'
    · subst hb
      simp only [argvScan, Bool.not_true, Bool.false_and, Bool.false_eq_true, if_false,
        if_true]
      rw [ih (n + 1) acc hr, List.replicate_succ']
      simp
    · have hq : c ≠ '"' := by
        intro h
        subst h
        simp [special] at hc
      simp only [argvScan, Bool.not_true, Bool.false_and, Bool.false_eq_true, if_false,
        if_neg hb, if_neg hq, hwsc]
      rw [ih 0 _ hr]
      simp

/-- The loop on a run of backslashes alone: the count wraps as `unsigned`
does, and so does its double. -/
theorem ArgvQuote_loop_backslashes (m : Nat) :
    ∀ k, k < 2 ^ 32 →
      ArgvQuote_loop (List.replicate m '\\') k
        = List.replicate (unsigned (unsigned (k + m) * 2)) '\\' := by
  induction m with
  | zero =>
    intro k hk
    simp only [List.replicate_zero, ArgvQuote_loop, Nat.add_zero, unsigned_of_lt k hk]
  | succ j ih =>
    intro k hk
    rw [List.replicate_succ]
    simp only [ArgvQuote_loop, if_true]
    rw [ih (unsigned (k + 1)) (Nat.mod_lt _ (by decide))]
    have hmod : unsigned (unsigned (k + 1) + j) = unsigned (k + (j + 1)) := by
      unfold unsigned
      rw [Nat.mod_add_mod]
      congr 1
      omega
    rw [hmod]

/-- What `ArgvQuote` does to a run of backslashes whose doubled length wraps
to 0 as an `unsigned`: the run is lost, and the text read back is not the
argument. -/
theorem ArgvQuote_wrapped_run (m : Nat) (hm : 0 < m)
    (hwrap : unsigned (unsigned (0 + m) * 2) = 0) :
    ArgvQuote (List.replicate m '\\') [] true = ['"', '"']
      ∧ CommandLineToArgvW spaceOrTab (ArgvQuote (List.replicate m '\\') [] true)
          ≠ [List.replicate m '\\'] := by
  have hq : ArgvQuote (List.replicate m '\\') [] true = ['"', '"'] := by
    simp only [ArgvQuote, Bool.true_beq, Bool.not_false, Bool.false_and,
      Bool.false_eq_true, if_false, List.nil_append]
    rw [ArgvQuote_loop_backslashes m 0 (by decide), hwrap]
    rfl
  refine ⟨hq, ?_⟩
  rw [hq]
  intro h
  have hparse : CommandLineToArgvW spaceOrTab ['"', '"'] = [[]] := by decide
  rw [hparse] at h
  have hlen := congrArg (fun l => (l.headD []).length) h
  simp only [List.headD_cons, List.length_nil, List.length_replicate] at hlen
  omega

end quote

/-! ## The claims -/

namespace capsule

/-- C1, at most one session. Take any state without a session, without old
sessions and without recorded calls, and any interleaving of added connections,
messages read, ended readers and loop cycles (each cycle dispatching the next
queued message, whichever of the seven kinds it is). In every state reached the
current session is not among the old sessions, no old session is listed twice,
and every old session was the current session at an earlier point of the run
and has had `Stop` called on it. -/
theorem at_most_one_session (m0 : MainLoop) (h0 : m0.session_ = none)
    (h1 : m0.old_sessions_ = []) (_h2 : m0.calls = []) (tr : List MainLoop.Action)
    (m : MainLoop) (h : m0.exec tr = some m) :
    (∀ p, m.session_ = some p → p ∉ m.old_sessions_)
      ∧ m.old_sessions_.Nodup
      ∧ ∀ p ∈ m.old_sessions_,
          (∃ pre post m1, tr = pre ++ post ∧ post ≠ [] ∧ m0.exec pre = some m1
              ∧ m1.session_ = some p)
            ∧ (p, SessionCall.Stop) ∈ m.calls := by
  obtain ⟨⟨_, _, hc, hd, he⟩, hhist⟩ := MainLoop.exec_sessions m0 h0 h1 tr m h
  exact ⟨hc, hd, fun p hp => ⟨hhist p hp, he p hp⟩⟩

/-- C1 on the run in which a session is set up and then ended by the hotkey:
the session at address 0 is the one old session. -/
theorem at_most_one_session_witness :
    (MainLoop.init MainLoop.sampleArgs none).exec MainLoop.startThenFlip
        = some (MainLoop.sampleRun MainLoop.startThenFlip)
      ∧ (MainLoop.sampleRun MainLoop.startThenFlip).session_ = none
      ∧ (MainLoop.sampleRun MainLoop.startThenFlip).old_sessions_ = [0]
      ∧ (0, SessionCall.Stop) ∈ (MainLoop.sampleRun MainLoop.startThenFlip).calls :=
  ⟨rfl, rfl, rfl,
    ((at_most_one_session (MainLoop.init MainLoop.sampleArgs none) rfl rfl rfl
      MainLoop.startThenFlip (MainLoop.sampleRun MainLoop.startThenFlip) rfl).2.2 0
        (by decide)).2⟩

end capsule

namespace VideoReceiver

/-- C2 as stated fails. The receiver is stopped with nothing pending and the
encoder makes a call with a `buffer_size` of 0: the call leaves through
`return 0`, so no packet is written, and yet it is a call that returned its
`buffer_size`. -/
theorem ack_conservation_counterexample :
    ((World.start sample none).exec stopPullZero).recv.io = []
      ∧ ((World.start sample none).exec stopPullZero).results.map
          (fun res => (res.ret, res.buffer_size, res.info)) = [(0, 0, none)]
      ∧ ((World.start sample none).exec stopPullZero).results.countP
          (fun res => res.ret == (res.buffer_size : Int)) = 1 := by
  refine ⟨rfl, rfl, rfl⟩

/-- C2 as amended. Over every interleaving of `frameCommitted`, `receiveFrame`
and `stop` on one receiver, let `popped` be the frames that left the queue: the
frames pending at the start followed by the frames of the accepted
`frameCommitted` calls are `popped` followed by what is still pending. The
packets written are, in order, one `VideoFrameProcessed` per frame of `popped`,
carrying that frame's index, and nothing else; `popped` lists the frames the
finished calls took, a call that took none returns 0, and a call that took one
returns its `buffer_size` as an `int`. So the number of acknowledgements is the
number of calls that took a frame, and when every call is made with a
`buffer_size` that is not 0 and that `int` holds, it is the number of calls
whose return value is `buffer_size`. -/
theorem ack_conservation (r : VideoReceiver) (tr : List Action) :
    ∃ popped : List FrameInfo,
      r.queue ++ accepted r.stopped tr
          = popped ++ ((World.start r none).exec tr).recv.queue
        ∧ ((World.start r none).exec tr).recv.io = r.io ++ popped.map ack
        ∧ ((World.start r none).exec tr).results.filterMap (fun res => res.info) = popped
        ∧ (∀ res ∈ ((World.start r none).exec tr).results,
            (res.info = none → res.ret = 0)
              ∧ (res.info ≠ none → res.ret = toInt res.buffer_size))
        ∧ ((World.start r none).exec tr).recv.io.length
            = r.io.length
              + (((World.start r none).exec tr).results.filter
                  (fun res => res.info.isSome)).length
        ∧ ((∀ a ∈ tr, ∀ buffer buffer_size timestamp,
              a = Action.receiveFrame buffer buffer_size timestamp →
                0 < buffer_size ∧ buffer_size < 2 ^ 31) →
            ((World.start r none).exec tr).recv.io.length
              = r.io.length
                + ((World.start r none).exec tr).results.countP
                    (fun res => res.ret == (res.buffer_size : Int))) := by
  obtain ⟨new, hres, hio, hret⟩ := exec_io (World.start r none) tr
  have hres1 : ((World.start r none).exec tr).results = new := by
    simpa [World.start] using hres
  have hio1 : ((World.start r none).exec tr).recv.io
      = r.io ++ (new.filterMap (fun res => res.info)).map ack := by
    simpa [World.start] using hio
  have hbal := exec_balance (World.start r none) tr
  have hlen : (new.filter (fun res => res.info.isSome)).length
      = (new.filterMap (fun res => res.info)).length := by
    clear hres hio hret hres1 hio1 hbal
    induction new with
    | nil => rfl
    | cons x rest ih =>
      cases hx : x.info with
      | none => simp [List.filter, hx, List.filterMap_cons_none, ih]
      | some i => simp [List.filter, hx, List.filterMap_cons_some, ih]
  refine ⟨new.filterMap (fun res => res.info), ?_, hio1, ?_, ?_, ?_, ?_⟩
  · rw [World.consumed, hres1] at hbal
    rw [hbal]
    simp [World.start, World.consumed]
  · rw [hres1]
  · rw [hres1]
    exact hret
  · rw [hio1, hres1, hlen]
    simp
  · intro hz
    have hsz := exec_sizes (fun n => 0 < n ∧ n < 2 ^ 31) (World.start r none) tr hz
      (by simp [World.start]) (by simp [World.start])
    rw [hres1] at hsz
    rw [hio1, hres1, countP_ret_eq new hret hsz]
    simp

/-- The amended C2 on the run in which a frame is committed and taken, the
receiver is stopped and one more call ends with 0: one packet is written and
one of the two calls returned its `buffer_size` of 4. -/
theorem ack_conservation_witness :
    ((World.start sample none).exec commitPullStopPull).recv.io
        = [Packet.VideoFrameProcessed 7]
      ∧ ((World.start sample none).exec commitPullStopPull).results.map
          (fun res => res.ret) = [4, 0]
      ∧ ((World.start sample none).exec commitPullStopPull).recv.io.length
          = sample.io.length
            + ((World.start sample none).exec commitPullStopPull).results.countP
                (fun res => res.ret == (res.buffer_size : Int)) := by
  refine ⟨rfl, rfl, ?_⟩
  obtain ⟨_, _, _, _, _, _, h⟩ := ack_conservation sample commitPullStopPull
  apply h
  intro a ha buffer buffer_size timestamp he
  subst he
  simp only [commitPullStopPull, List.mem_cons, List.mem_singleton, reduceCtorEq,
    false_or, or_false, Action.receiveFrame.injEq, List.mem_nil_iff] at ha
  rcases ha with ⟨_, h4, _⟩ | ⟨_, h4, _⟩ <;> subst h4 <;> decide

/-- C3, ordering. Over every interleaving, whatever call is in progress at its
start, the frames consumed by the finished `receiveFrame` calls, in the order
of the calls, are a prefix of the frames pending at the start followed by the
frames handed to the `frameCommitted` calls that were not dropped, in the order
of those calls; with nothing pending at the start, a prefix of the accepted
commits. -/
theorem consumed_prefix_of_commits (r : VideoReceiver) (call : Option Activation)
    (tr : List Action) :
    ((World.start r call).exec tr).consumed <+: r.queue ++ accepted r.stopped tr
      ∧ (r.queue = [] →
          ((World.start r call).exec tr).consumed <+: accepted r.stopped tr) := by
  have hbal := exec_balance (World.start r call) tr
  have hpre : ((World.start r call).exec tr).consumed <+: r.queue ++ accepted r.stopped tr := by
    refine ⟨((World.start r call).exec tr).recv.queue, ?_⟩
    rw [hbal]
    simp [World.start, World.consumed]
  refine ⟨hpre, ?_⟩
  intro hq
  simpa [hq] using hpre

end VideoReceiver

namespace capsule

/-- C4 as stated fails. Connection 0 is added, its reader pushes
`HotkeyPressed`, meets the end of the stream and removes the connection. In the
state reached there is no preferred connection and no connection at all, and
`CaptureStart` writes to no connection: it reads the front of the empty
`conns_`. -/
theorem capture_start_counterexample :
    (MainLoop.init MainLoop.sampleArgs none).exec MainLoop.hotkeyThenEof
        = some (MainLoop.sampleRun MainLoop.hotkeyThenEof)
      ∧ (MainLoop.sampleRun MainLoop.hotkeyThenEof).best_conn_ = none
      ∧ (MainLoop.sampleRun MainLoop.hotkeyThenEof).conns_ = []
      ∧ (MainLoop.sampleRun MainLoop.hotkeyThenEof).written = []
      ∧ (MainLoop.sampleRun MainLoop.hotkeyThenEof).CaptureStart = none :=
  ⟨rfl, rfl, rfl, rfl, rfl⟩

/-- C4 as amended. In any state reached from the initial one: a defined
`CaptureStart` appends exactly one `CaptureStart` packet, carrying `fps`,
`size_divider` and `gpu_color_conv` of `args_`, for exactly one connection, and
changes nothing else; it is defined, and does so, whenever there is a preferred
connection or `conns_` is not empty; when a `SawBackend` has been dispatched,
that connection is the one of the latest `SawBackend`; when none has been, and
`conns_` is not empty, it is the first of `conns_`; and `conns_` lists the
connections in the order they were added. -/
theorem best_connection_selection (args : MainArgs)
    (factory : Option (Unit → Option audio.AudioReceiver)) (tr : List MainLoop.Action)
    (m : MainLoop) (h : (MainLoop.init args factory).exec tr = some m) :
    (∀ m1, m.CaptureStart = some m1 →
        ∃ c, m1 = { m with
              written := m.written ++ [(c, Packet.CaptureStart m.args_.fps
                m.args_.size_divider m.args_.gpu_color_conv)] }
          ∧ (m.best_conn_ = some c ∨ (m.best_conn_ = none ∧ m.conns_.head? = some c)))
      ∧ ((m.best_conn_ ≠ none ∨ m.conns_ ≠ []) →
          ∃ c, m.CaptureStart = some { m with
              written := m.written ++ [(c, Packet.CaptureStart m.args_.fps
                m.args_.size_divider m.args_.gpu_color_conv)] }
            ∧ (m.best_conn_ = some c ∨ (m.best_conn_ = none ∧ m.conns_.head? = some c)))
      ∧ (∀ pre msg post b, m.dispatched = pre ++ msg :: post →
          msg.buf = messages.Message.SawBackend b →
          (∀ x ∈ post, ∀ b1, x.buf ≠ messages.Message.SawBackend b1) →
          m.CaptureStart = some { m with
            written := m.written ++ [(msg.conn, Packet.CaptureStart m.args_.fps
              m.args_.size_divider m.args_.gpu_color_conv)] })
      ∧ ((∀ x ∈ m.dispatched, ∀ b, x.buf ≠ messages.Message.SawBackend b) →
          ∀ c rest, m.conns_ = c :: rest →
          m.CaptureStart = some { m with
            written := m.written ++ [(c, Packet.CaptureStart m.args_.fps
              m.args_.size_divider m.args_.gpu_color_conv)] })
      ∧ m.conns_.Sublist (MainLoop.added tr) := by
  obtain ⟨_, _, _, _, hsub, hbest⟩ := MainLoop.exec_conns args factory tr m h
  have hbest_cases : m.best_conn_ = none ∨ ∃ c, m.best_conn_ = some c := by
    cases m.best_conn_ <;> simp
  have hconn_cases : m.conns_ = [] ∨ ∃ c rest, m.conns_ = c :: rest := by
    cases m.conns_ <;> simp
  refine ⟨?_, ?_, ?_, ?_, hsub⟩
  · intro m1 hm1
    rcases hbest_cases with hb | ⟨c, hb⟩
    · rcases hconn_cases with hc | ⟨c, rest, hc⟩
      · simp [MainLoop.CaptureStart, hb, hc] at hm1
      · rw [MainLoop.CaptureStart_front m c rest hb hc] at hm1
        exact ⟨c, (Option.some.inj hm1).symm, Or.inr ⟨hb, by simp [hc]⟩⟩
    · rw [MainLoop.CaptureStart_some m c hb] at hm1
      exact ⟨c, (Option.some.inj hm1).symm, Or.inl hb⟩
  · intro hdef
    rcases hbest_cases with hb | ⟨c, hb⟩
    · rcases hconn_cases with hc | ⟨c, rest, hc⟩
      · rcases hdef with hdef | hdef
        · exact absurd hb hdef
        · exact absurd hc hdef
      · exact ⟨c, MainLoop.CaptureStart_front m c rest hb hc, Or.inr ⟨hb, by simp [hc]⟩⟩
    · exact ⟨c, MainLoop.CaptureStart_some m c hb, Or.inl hb⟩
  · intro pre msg post b hd hmsg hpost
    apply MainLoop.CaptureStart_some
    rw [hbest, hd]
    exact MainLoop.lastSawBackend_split pre post msg b hmsg hpost
  · intro hno c rest hc
    apply MainLoop.CaptureStart_front m c rest _ hc
    rw [hbest]
    exact MainLoop.lastSawBackend_none _ hno

/-- The amended C4 on the run with connections 1 and 2 and `SawBackend` on 2:
the packet goes to 2, not to 1. -/
theorem best_connection_selection_witness :
    (MainLoop.init MainLoop.sampleArgs none).exec MainLoop.sawBackendOnSecond
        = some (MainLoop.sampleRun MainLoop.sawBackendOnSecond)
      ∧ (MainLoop.sampleRun MainLoop.sawBackendOnSecond).conns_ = [1, 2]
      ∧ ((MainLoop.sampleRun MainLoop.sawBackendOnSecond).CaptureStart).map
          (fun m => m.written) = some [(2, Packet.CaptureStart 60 1 false)] :=
  ⟨rfl, rfl, by
    have h := (best_connection_selection MainLoop.sampleArgs none MainLoop.sawBackendOnSecond
      (MainLoop.sampleRun MainLoop.sawBackendOnSecond) rfl).2.2.1 []
        { conn := 2, buf := messages.Message.SawBackend 0 } [] 0 rfl rfl
        (fun x hx => by cases hx)
    rw [h]
    rfl⟩

/-- C5, a rejected `VideoSetup`. When a session exists already, or the width
or the height is zero, `StartSession` returns the state it was given: no session
object, no receiver, no `Open` call, and `session_`, `old_sessions_`,
`best_conn_` and `conns_` as they were; so does the dispatch of such a message.
A `VideoFrameCommitted` dispatched while there is no session changes nothing
either. -/
theorem rejected_setup_unchanged (ret : Int) (m : MainLoop) (vs : messages.VideoSetup)
    (conn : Connection) :
    ((m.session_ ≠ none ∨ vs.width = 0 ∨ vs.height = 0) →
        m.StartSession ret vs conn = m
          ∧ MainLoop.Dispatch ret m { conn := conn, buf := messages.Message.VideoSetup vs }
              = some m)
      ∧ (m.session_ = none → ∀ index timestamp,
          MainLoop.Dispatch ret m
            { conn := conn, buf := messages.Message.VideoFrameCommitted index timestamp }
              = some m) := by
  refine ⟨?_, ?_⟩
  · intro hrej
    have hstart : m.StartSession ret vs conn = m := by
      unfold MainLoop.StartSession
      cases hs : m.session_ with
      | some p => rfl
      | none =>
        rcases hrej with h | h | h
        · exact absurd hs h
        · simp [h]
        · simp [h]
    exact ⟨hstart, by simp [MainLoop.Dispatch, hstart]⟩
  · intro hs index timestamp
    simp [MainLoop.Dispatch, hs]

/-- C6, the audio receiver of a new session. For a `VideoSetup` that is
accepted (no session yet, width and height positive, `Open` returns `kOK`)
`StartSession` makes a session at a fresh address whose audio receiver is:
none when `no_audio` is set; the intercept receiver built from the `audio`
sub-record when `no_audio` is not set and the sub-record is there, the factory
not being called; the result of the factory, called once, when the sub-record
is missing and there is a factory; none when there is neither. -/
theorem audio_selection (ret : Int) (m : MainLoop) (vs : messages.VideoSetup)
    (conn : Connection) (hs : m.session_ = none) (hw : 0 < vs.width) (hh : 0 < vs.height)
    (hret : ret = shoom.kOK) :
    ∃ s, (m.StartSession ret vs conn).session_ = some m.heap.length
      ∧ (m.StartSession ret vs conn).heap = m.heap ++ [s]
      ∧ (m.args_.no_audio = true →
          s.audio_ = none
            ∧ (m.StartSession ret vs conn).factory_calls = m.factory_calls)
      ∧ (m.args_.no_audio = false → ∀ as, vs.audio = some as →
          s.audio_ = some (audio.AudioReceiver.intercept conn as)
            ∧ (m.StartSession ret vs conn).factory_calls = m.factory_calls)
      ∧ (m.args_.no_audio = false → vs.audio = none →
          ∀ f, m.audio_receiver_factory_ = some f →
            s.audio_ = f ()
              ∧ (m.StartSession ret vs conn).factory_calls = m.factory_calls + 1)
      ∧ (m.args_.no_audio = false → vs.audio = none → m.audio_receiver_factory_ = none →
          s.audio_ = none
            ∧ (m.StartSession ret vs conn).factory_calls = m.factory_calls) := by
  have hw0 : vs.width ≠ 0 := Nat.pos_iff_ne_zero.mp hw
  have hh0 : vs.height ≠ 0 := Nat.pos_iff_ne_zero.mp hh
  subst hret
  refine ⟨{ args_ := m.args_
            video_ := some
              { conn := conn
                vfmt := { width := vs.width, height := vs.height, format := vs.pix_fmt,
                          vflip := vs.vflip, pitch := vs.linesize0 }
                shm := vs.shmem
                num_buffered_frames :=
                  if m.args_.buffered_frames != 0 then m.args_.buffered_frames else 3 }
            audio_ := (m.selectAudio vs conn).1 }, ?_, ?_, ?_, ?_, ?_, ?_⟩
  · simp [MainLoop.StartSession, hs, hw0, hh0]
  · simp [MainLoop.StartSession, hs, hw0, hh0]
  · intro hna
    simp [MainLoop.StartSession, hs, hw0, hh0, MainLoop.selectAudio, hna]
  · intro hna as has
    simp [MainLoop.StartSession, hs, hw0, hh0, MainLoop.selectAudio, hna, has]
  · intro hna has f hf
    simp [MainLoop.StartSession, hs, hw0, hh0, MainLoop.selectAudio, hna, has, hf]
  · intro hna has hf
    simp [MainLoop.StartSession, hs, hw0, hh0, MainLoop.selectAudio, hna, has, hf]

/-- C6 on the initial state with audio left on, no factory, and a setup that
carries an audio sub-record: the session gets the intercept receiver. -/
theorem audio_selection_witness :
    (MainLoop.init MainLoop.sampleArgs none).session_ = none
      ∧ 0 < MainLoop.sampleSetup.width ∧ 0 < MainLoop.sampleSetup.height
      ∧ ∃ s, ((MainLoop.init MainLoop.sampleArgs none).StartSession shoom.kOK
              MainLoop.sampleSetup 5).heap = [s]
          ∧ s.audio_ = some (audio.AudioReceiver.intercept 5 { layout := 2 }) := by
  refine ⟨rfl, by decide, by decide, ?_⟩
  obtain ⟨s, _, hheap, _, hint, _, _⟩ :=
    audio_selection shoom.kOK (MainLoop.init MainLoop.sampleArgs none) MainLoop.sampleSetup 5
      rfl (by decide) (by decide) rfl
  exact ⟨s, by simpa [MainLoop.init] using hheap, (hint rfl { layout := 2 } rfl).1⟩

end capsule

namespace VideoReceiver

/-- C7 fails on the code. With the frames of slots 7 and 8 pending, a call with
a `buffer_size` of 2^32 takes the frame of slot 7 and acknowledges it, and
returns 0, the value of the exit taken when the receiver is stopped; a call
with a `buffer_size` of 2^31 returns -2^31. Neither returns `buffer_size`. The
same in an interleaving: a frame is committed and the call that takes it with a
`buffer_size` of 2^32 writes the acknowledgement and returns 0. -/
theorem receiveFrame_return_truncated :
    (receiveFrame 1 samplePending (fun _ => 0) (2 ^ 32) 0).map
        (fun p => (p.2.ret, p.2.buffer_size, p.2.info, p.1.io, p.1.queue))
        = some (0, 4294967296, some { index := 7, timestamp := 100 },
            [Packet.VideoFrameProcessed 7], [{ index := 8, timestamp := 200 }])
      ∧ (receiveFrame 1 samplePending (fun _ => 0) (2 ^ 31) 0).map
          (fun p => (p.2.ret, p.2.buffer_size, p.2.info, p.1.io, p.1.queue))
          = some (-2147483648, 2147483648, some { index := 7, timestamp := 100 },
              [Packet.VideoFrameProcessed 7], [{ index := 8, timestamp := 200 }])
      ∧ ((World.start sample none).exec commitPullHuge).recv.io
          = [Packet.VideoFrameProcessed 7]
      ∧ ((World.start sample none).exec commitPullHuge).results.map
          (fun res => (res.ret, res.buffer_size)) = [(0, 4294967296)] := by
  refine ⟨rfl, rfl, rfl, rfl⟩

/-- What a call of `receiveFrame` does, for every receiver and every argument.
A call that tests `stopped` after a timed out pop and finds it set returns 0,
writes nothing and leaves the buffer and the timestamp as they were; run alone
on a stopped receiver with nothing pending it does so within two steps. A call
that finds a frame pending takes the head `info`, copies `buffer_size` bytes
from offset `buffer_size * info.index` (as a `size_t` product, which is the
plain product when that fits 64 bits) of the mapping into the buffer, sets the
timestamp to `info.timestamp`, writes one `VideoFrameProcessed` with
`info.index`, and returns `buffer_size` converted to `int`, which is
`buffer_size` itself below 2^31. With nothing pending and the receiver not
stopped the call keeps waiting. -/
theorem receiveFrame_behaviour (r : VideoReceiver) (buffer : Nat → Nat) (buffer_size : Nat)
    (timestamp : Int) :
    (r.stopped = true →
        receiveFrame_step r
            { buffer := buffer, buffer_size := buffer_size, timestamp := timestamp,
              pc := Pc.check }
          = (r, Sum.inr
              { ret := 0, buffer := buffer, timestamp := timestamp,
                buffer_size := buffer_size, info := none }))
      ∧ (r.queue = [] → r.stopped = true → ∀ fuel,
          receiveFrame (fuel + 2) r buffer buffer_size timestamp
            = some (r,
                { ret := 0, buffer := buffer, timestamp := timestamp,
                  buffer_size := buffer_size, info := none }))
      ∧ (∀ info rest, r.queue = info :: rest → ∀ fuel,
          receiveFrame (fuel + 1) r buffer buffer_size timestamp
            = some ({ r with
                      queue := rest
                      io := r.io ++ [Packet.VideoFrameProcessed info.index] },
                { ret := toInt buffer_size
                  buffer := fun i =>
                    if i < buffer_size then
                      r.mapped ((buffer_size * info.index) % 2 ^ 64 + i)
                    else buffer i
                  timestamp := info.timestamp
                  buffer_size := buffer_size
                  info := some info }))
      ∧ (buffer_size < 2 ^ 31 → toInt buffer_size = (buffer_size : Int))
      ∧ (∀ index, buffer_size * index < 2 ^ 64 →
          sourceOffset buffer_size index = buffer_size * index)
      ∧ (r.queue = [] → r.stopped = false → ∀ fuel,
          receiveFrame fuel r buffer buffer_size timestamp = none) := by
  refine ⟨?_, ?_, ?_, toInt_of_lt buffer_size, ?_, ?_⟩
  · intro hs
    simp [receiveFrame_step, hs]
  · intro hq hs fuel
    simp [receiveFrame, receiveFrame_from, enter, receiveFrame_step, hq, hs]
  · intro info rest hq fuel
    simp only [receiveFrame, receiveFrame_from, enter, receiveFrame_step, hq]
    rfl
  · intro index hlt
    exact Nat.mod_eq_of_lt hlt
  · intro hq hs fuel
    have hloop : ∀ n (a : Activation), receiveFrame_from r a n = none := by
      intro n
      induction n with
      | zero => intro a; rfl
      | succ k ih =>
        intro a
        cases hp : a.pc with
        | pop => simp [receiveFrame_from, receiveFrame_step, hp, hq, ih]
        | check => simp [receiveFrame_from, receiveFrame_step, hp, hs, ih]
    exact hloop fuel _

/-- C9, the gate of `frameCommitted`. On a receiver that is not stopped the
call appends the frame at the tail of the queue and changes nothing else; on a
stopped receiver it changes nothing. `stop` sets the flag, changes no other
member and is idempotent. Hence an interleaving that contains a `stop` consumes
only frames that were pending or committed before that `stop`, and once the
receiver is stopped it stays stopped and the `frameCommitted` calls that follow
can be struck from the interleaving without changing its outcome. -/
theorem frameCommitted_gating (r : VideoReceiver) (index : Nat) (timestamp : Int) :
    (r.stopped = false →
        r.frameCommitted index timestamp
          = { r with queue := r.queue ++ [{ index := index, timestamp := timestamp }] })
      ∧ (r.stopped = true → r.frameCommitted index timestamp = r)
      ∧ (r.stop.stopped = true ∧ r.stop.queue = r.queue ∧ r.stop.io = r.io
          ∧ r.stop.mapped = r.mapped ∧ r.stop.vfmt = r.vfmt)
      ∧ r.stop.stop = r.stop
      ∧ (∀ (call : Option Activation) (pre post : List Action),
          ((World.start r call).exec (pre ++ Action.stop :: post)).consumed
            <+: r.queue ++ accepted r.stopped pre)
      ∧ (∀ (w : World) (tr : List Action), w.recv.stopped = true →
          (w.exec tr).recv.stopped = true
            ∧ w.exec tr = w.exec (tr.filter (fun a => !a.isCommit))) := by
  refine ⟨?_, ?_, ⟨rfl, rfl, rfl, rfl, rfl⟩, rfl, ?_, ?_⟩
  · intro hs
    simp [frameCommitted, hs]
  · intro hs
    simp [frameCommitted, hs]
  · intro call pre post
    have hbal := exec_balance (World.start r call) (pre ++ Action.stop :: post)
    rw [show (World.start r call).recv.stopped = r.stopped from rfl,
      accepted_append_stop] at hbal
    refine ⟨((World.start r call).exec (pre ++ Action.stop :: post)).recv.queue, ?_⟩
    rw [hbal]
    simp [World.start, World.consumed]
  · intro w tr hs
    exact ⟨exec_stopped w tr hs, exec_filter_commits w tr hs⟩

end VideoReceiver

namespace capsule

/-- C10 as stated fails: connection 7 is added, its `SawBackend` is dispatched,
and its reader then removes it from `conns_`; `best_conn_` still names 7 while
`conns_` is empty. -/
theorem best_conn_membership_counterexample :
    ((MainLoop.init MainLoop.sampleArgs none).exec MainLoop.sawBackendThenEof).map
        (fun m => (m.best_conn_, m.conns_))
      = some (some 7, []) := by
  rfl

/-- C10 as amended. In every state reached from the initial one by adding
connections, reading messages, ending readers and running loop cycles,
`best_conn_` is null or names a connection that was handed to `AddConnection`,
and that connection is still in `conns_` unless its reader has met the end of
its stream. -/
theorem best_conn_added_unless_culled (args : MainArgs)
    (factory : Option (Unit → Option audio.AudioReceiver)) (tr : List MainLoop.Action)
    (m : MainLoop) (h : (MainLoop.init args factory).exec tr = some m) :
    m.best_conn_ = none
      ∨ ∃ c, m.best_conn_ = some c ∧ c ∈ MainLoop.added tr
          ∧ (c ∈ m.conns_ ∨ MainLoop.Action.Eof c ∈ tr) := by
  obtain ⟨_, _, hbest, hconn, _, _⟩ := MainLoop.exec_conns args factory tr m h
  cases hb : m.best_conn_ with
  | none => exact Or.inl rfl
  | some c => exact Or.inr ⟨c, rfl, hbest c hb, hconn c (hbest c hb)⟩

/-- The amended C10 on the run in which connection 7 announces its backend and
goes away. -/
theorem best_conn_added_unless_culled_witness :
    (MainLoop.init MainLoop.sampleArgs none).exec MainLoop.sawBackendThenEof
        = some (MainLoop.sampleRun MainLoop.sawBackendThenEof)
      ∧ ((MainLoop.sampleRun MainLoop.sawBackendThenEof).best_conn_ = none
        ∨ ∃ c, (MainLoop.sampleRun MainLoop.sawBackendThenEof).best_conn_ = some c
            ∧ c ∈ MainLoop.added MainLoop.sawBackendThenEof
            ∧ (c ∈ (MainLoop.sampleRun MainLoop.sawBackendThenEof).conns_
              ∨ MainLoop.Action.Eof c ∈ MainLoop.sawBackendThenEof)) :=
  ⟨rfl, best_conn_added_unless_culled MainLoop.sampleArgs none MainLoop.sawBackendThenEof
    (MainLoop.sampleRun MainLoop.sawBackendThenEof) rfl⟩

/-- C11, how the loop of `Run` is left. A step makes a running loop return
exactly when it is a cycle whose pop finds no message while `conns_` is empty;
a cycle that finds no message but a connection changes nothing, and a cycle
that finds a message dispatches it, whatever `conns_` holds, and does not
return. In every state reached from the initial one in which `Run` has
returned, there is no current session, and every session object that was made
is among the old sessions and has had `Stop` and, after it, `Join` called on
it. -/
theorem run_exit (args : MainArgs) (factory : Option (Unit → Option audio.AudioReceiver))
    (tr : List MainLoop.Action) (m : MainLoop)
    (h : (MainLoop.init args factory).exec tr = some m) :
    (∀ (s s1 : MainLoop) (a : MainLoop.Action), s.step a = some s1 → s.returned = false →
        (s1.returned = true ↔
          ∃ ret, a = MainLoop.Action.Cycle ret ∧ s.queue_ = [] ∧ s.conns_ = []))
      ∧ (∀ (s : MainLoop) (ret : Int), s.returned = false → s.queue_ = [] → s.conns_ ≠ [] →
          s.step (MainLoop.Action.Cycle ret) = some s)
      ∧ (∀ (s : MainLoop) (ret : Int) (msg : LoopMessage) (rest : List LoopMessage),
          s.returned = false → s.queue_ = msg :: rest →
          s.step (MainLoop.Action.Cycle ret)
              = MainLoop.Dispatch ret
                  { s with queue_ := rest, dispatched := s.dispatched ++ [msg] } msg
            ∧ ∀ s1, s.step (MainLoop.Action.Cycle ret) = some s1 → s1.returned = false)
      ∧ (m.returned = true →
          m.session_ = none
            ∧ ∀ p, p < m.heap.length →
                p ∈ m.old_sessions_
                  ∧ ∃ a b c, m.calls
                      = a ++ (p, SessionCall.Stop) :: (b ++ (p, SessionCall.Join) :: c)) := by
  refine ⟨?_, ?_, ?_, ?_⟩
  · intro s s1 a hstep hr
    exact (MainLoop.step_returns_iff s s1 a hstep hr).1
  · intro s ret hr hq hc
    cases hcs : s.conns_ with
    | nil => exact absurd hcs hc
    | cons c tl => simp [MainLoop.step, hr, MainLoop.Run_cycle, hq, hcs]
  · intro s ret msg rest hr hq
    have hstep : s.step (MainLoop.Action.Cycle ret)
        = MainLoop.Dispatch ret
            { s with queue_ := rest, dispatched := s.dispatched ++ [msg] } msg := by
      simp [MainLoop.step, hr, MainLoop.Run_cycle, hq]
    refine ⟨hstep, ?_⟩
    intro s1 hs1
    rw [hstep] at hs1
    rw [MainLoop.Dispatch_returned ret _ s1 msg hs1]
    exact hr
  · intro hr
    exact (MainLoop.exec_exit args factory tr m h).2 hr

/-- C11 on the run in which the connection goes away while a session runs: the
loop returns, the session at address 0 is old, and it was started, stopped and
joined, in this order. -/
theorem run_exit_witness :
    (MainLoop.init MainLoop.sampleArgs none).exec MainLoop.startThenDisconnect
        = some (MainLoop.sampleRun MainLoop.startThenDisconnect)
      ∧ (MainLoop.sampleRun MainLoop.startThenDisconnect).returned = true
      ∧ (MainLoop.sampleRun MainLoop.startThenDisconnect).calls
          = [(0, SessionCall.Start), (0, SessionCall.Stop), (0, SessionCall.Join)]
      ∧ (MainLoop.sampleRun MainLoop.startThenDisconnect).session_ = none
      ∧ 0 ∈ (MainLoop.sampleRun MainLoop.startThenDisconnect).old_sessions_ :=
  ⟨rfl, rfl, rfl,
    ((run_exit MainLoop.sampleArgs none MainLoop.startThenDisconnect
      (MainLoop.sampleRun MainLoop.startThenDisconnect) rfl).2.2.2 rfl).1,
    (((run_exit MainLoop.sampleArgs none MainLoop.startThenDisconnect
      (MainLoop.sampleRun MainLoop.startThenDisconnect) rfl).2.2.2 rfl).2 0
        (by decide)).1⟩

/-- C12 as stated fails in two places. In the initial state there is no
session, no preferred connection and no connection, and `CaptureFlip` does not
write a `CaptureStart`: it reads the front of the empty `conns_`, which is
undefined. And when connection 3 has been added twice and a session runs,
`CaptureFlip` writes two `CaptureStop` packets to it, one per entry of
`conns_`. -/
theorem capture_flip_counterexample :
    (MainLoop.init MainLoop.sampleArgs none).session_ = none
      ∧ (MainLoop.init MainLoop.sampleArgs none).best_conn_ = none
      ∧ (MainLoop.init MainLoop.sampleArgs none).conns_ = []
      ∧ (MainLoop.init MainLoop.sampleArgs none).CaptureFlip = none
      ∧ (MainLoop.init MainLoop.sampleArgs none).exec MainLoop.addedTwice
          = some (MainLoop.sampleRun MainLoop.addedTwice)
      ∧ (MainLoop.sampleRun MainLoop.addedTwice).session_ = some 0
      ∧ (MainLoop.sampleRun MainLoop.addedTwice).conns_ = [3, 3]
      ∧ ((MainLoop.sampleRun MainLoop.addedTwice).CaptureFlip).map (fun m => m.written)
          = some [(3, Packet.CaptureStop), (3, Packet.CaptureStop)] :=
  ⟨rfl, rfl, rfl, rfl, rfl, rfl, rfl, rfl⟩

/-- C12 as amended. In a state without a session `CaptureFlip` does what
`CaptureStart` does, and only that; when a preferred connection is set or
`conns_` is not empty, one `CaptureStart` packet is written, to the preferred
connection or else the first of `conns_`, and nothing else changes (no session,
same old sessions). In a state with a session it does what
`CaptureStop` does: the session is stopped and appended to the old sessions,
`session_` becomes null, and one `CaptureStop` is written per entry of `conns_`,
in order, which is exactly one for each connection in `conns_` and none for any
other when `conns_` lists no connection twice. `CaptureStop` without a session,
called or dispatched, writes the same packets and changes nothing else. -/
theorem capture_flip_toggle (ret : Int) (conn : Connection) (m : MainLoop) :
    (m.session_ = none →
        m.CaptureFlip = m.CaptureStart
          ∧ ((m.best_conn_ ≠ none ∨ m.conns_ ≠ []) →
              ∃ c, m.CaptureFlip = some { m with
                    written := m.written ++ [(c, Packet.CaptureStart m.args_.fps
                      m.args_.size_divider m.args_.gpu_color_conv)] }
                ∧ (m.best_conn_ = some c
                  ∨ (m.best_conn_ = none ∧ m.conns_.head? = some c))))
      ∧ (∀ p, m.session_ = some p →
          m.CaptureFlip = some m.CaptureStop
            ∧ m.CaptureStop = { m with
                session_ := none
                calls := m.calls ++ [(p, SessionCall.Stop)]
                old_sessions_ := m.old_sessions_ ++ [p]
                written := m.written ++ m.conns_.map (fun c => (c, Packet.CaptureStop)) })
      ∧ (m.conns_.Nodup → ∀ c,
          (m.conns_.map (fun c => (c, Packet.CaptureStop))).count (c, Packet.CaptureStop)
            = if c ∈ m.conns_ then 1 else 0)
      ∧ (m.session_ = none →
          m.CaptureStop = { m with
              written := m.written ++ m.conns_.map (fun c => (c, Packet.CaptureStop)) }
            ∧ MainLoop.Dispatch ret m { conn := conn, buf := messages.Message.CaptureStop }
              = some m.CaptureStop) := by
  refine ⟨?_, ?_, ?_, ?_⟩
  · intro hs
    have hflip : m.CaptureFlip = m.CaptureStart := by
      simp [MainLoop.CaptureFlip, hs]
    refine ⟨hflip, ?_⟩
    intro htarget
    rw [hflip]
    have hbest_cases : m.best_conn_ = none ∨ ∃ c, m.best_conn_ = some c := by
      cases m.best_conn_ <;> simp
    rcases hbest_cases with hb | ⟨c, hb⟩
    · have hconn_cases : m.conns_ = [] ∨ ∃ c rest, m.conns_ = c :: rest := by
        cases m.conns_ <;> simp
      rcases hconn_cases with hc | ⟨c, rest, hc⟩
      · rcases htarget with h1 | h1
        · exact absurd hb h1
        · exact absurd hc h1
      · exact ⟨c, MainLoop.CaptureStart_front m c rest hb hc, Or.inr ⟨hb, by simp [hc]⟩⟩
    · exact ⟨c, MainLoop.CaptureStart_some m c hb, Or.inl hb⟩
  · intro p hs
    refine ⟨by simp [MainLoop.CaptureFlip, hs], ?_⟩
    simp [MainLoop.CaptureStop, MainLoop.EndSession, hs]
  · intro hnd c
    have hcount : ∀ l : List Connection,
        (l.map (fun c => (c, Packet.CaptureStop))).count (c, Packet.CaptureStop)
          = l.count c := by
      intro l
      induction l with
      | nil => rfl
      | cons x rest ih => simp [List.count_cons, ih]
    rw [hcount]
    by_cases hc : c ∈ m.conns_
    · rw [if_pos hc]
      exact List.count_eq_one_of_mem hnd hc
    · rw [if_neg hc]
      exact List.count_eq_zero_of_not_mem hc
  · intro hs
    refine ⟨?_, by simp [MainLoop.Dispatch]⟩
    simp [MainLoop.CaptureStop, MainLoop.EndSession, hs]

end capsule

namespace quote

/-- C13 fails on the code. For the argument made of 2^31 backslashes and
`Force` set, the `unsigned` count of the run doubles to 0, so `ArgvQuote`
appends two double quotes and nothing between them; read back by the argument
rules of `CommandLineToArgvW`, that is the empty argument and not the argument
given, against the routine description of `ArgvQuote`. -/
theorem ArgvQuote_backslash_run_wraps :
    ArgvQuote (List.replicate (2 ^ 31) '\\') [] true = ['"', '"']
      ∧ CommandLineToArgvW spaceOrTab (ArgvQuote (List.replicate (2 ^ 31) '\\') [] true)
          ≠ [List.replicate (2 ^ 31) '\\'] :=
  ArgvQuote_wrapped_run (2 ^ 31) (by decide) (by decide)

/-- The round trip where no count of a backslash run can wrap. For every
argument shorter than 2^31 characters, either value of `Force`, and any notion
of white space among space, tab, newline and vertical tab: `ArgvQuote` keeps
the command line as a prefix; the text it
appends does not depend on the command line and is either the argument as it
stands or a text between two double quotes (no separating space is added); and
that text, read by the argument rules of `CommandLineToArgvW`, gives exactly one
argument, equal to the original. -/
theorem ArgvQuote_round_trip (ws : Char → Bool)
    (hws : ∀ c, ws c = true → c = ' ' ∨ c = '\t' ∨ c = '\n' ∨ c = '\x0b')
    (Argument : List Char) (CommandLine : List Char) (Force : Bool)
    (hlen : Argument.length < 2 ^ 31) :
    ArgvQuote Argument CommandLine Force = CommandLine ++ ArgvQuote Argument [] Force
      ∧ CommandLineToArgvW ws (ArgvQuote Argument [] Force) = [Argument]
      ∧ (ArgvQuote Argument [] Force = Argument
          ∨ ∃ body, ArgvQuote Argument [] Force = '"' :: (body ++ ['"'])) := by
  have hsp : ∀ c, ws c = true → special c = true := by
    intro c hc
    rcases hws c hc with h | h | h | h <;> subst h <;> decide
  have hwq : ws '"' = false := by
    cases h : ws '"' with
    | false => rfl
    | true => rcases hws _ h with h1 | h1 | h1 | h1 <;> exact absurd h1 (by decide)
  by_cases hcond : (Force == false && Argument.isEmpty == false
      && !(Argument.any special)) = true
  · have h1 : ∀ cl, ArgvQuote Argument cl Force = cl ++ Argument := by
      intro cl
      simp only [ArgvQuote, hcond, if_true]
    have hparts : (Force == false && Argument.isEmpty == false) = true
        ∧ (!(Argument.any special)) = true := by
      simpa [Bool.and_eq_true] using hcond
    have hne : Argument ≠ [] := by
      intro h
      rw [h] at hparts
      simp at hparts
    have hplain : ∀ c ∈ Argument, special c = false := by
      intro c hc
      have hany : Argument.any special = false := by simpa using hparts.2
      cases hs : special c with
      | false => rfl
      | true =>
        have : Argument.any special = true := List.any_eq_true.mpr ⟨c, hc, hs⟩
        rw [hany] at this
        cases this
    refine ⟨by rw [h1, h1, List.nil_append], ?_, Or.inl (by rw [h1, List.nil_append])⟩
    rw [h1, List.nil_append]
    cases hA : Argument with
    | nil => exact absurd hA hne
    | cons c r =>
      have hc : special c = false := hplain c (by rw [hA]; exact List.mem_cons_self c r)
      have hwsc : ws c = false := by
        cases h : ws c with
        | false => rfl
        | true => rw [hsp c h] at hc; cases hc
      have hstart : CommandLineToArgvW ws (c :: r) = argvScan ws (c :: r) true false 0 [] := by
        simp [CommandLineToArgvW, argvScan, hwsc]
      rw [hstart, argvScan_plain ws hsp (c :: r) 0 [] (by rw [← hA]; exact hplain)]
      simp
  · have h1 : ∀ cl, ArgvQuote Argument cl Force
        = cl ++ '"' :: (ArgvQuote_loop Argument 0 ++ ['"']) := by
      intro cl
      simp only [ArgvQuote, hcond, Bool.false_eq_true, if_false]
    refine ⟨by rw [h1, h1, List.nil_append], ?_,
      Or.inr ⟨ArgvQuote_loop Argument 0, by rw [h1, List.nil_append]⟩⟩
    rw [h1, List.nil_append]
    have hstart : CommandLineToArgvW ws ('"' :: (ArgvQuote_loop Argument 0 ++ ['"']))
        = argvScan ws (ArgvQuote_loop Argument 0 ++ ['"']) true true 0 [] := by
      simp [CommandLineToArgvW, argvScan, hwq]
    rw [hstart, argvScan_loop ws Argument 0 [] (by omega)]
    simp

/-- The round trip on an argument with a space, a double quote after two
backslashes, and a backslash at the end. -/
theorem ArgvQuote_round_trip_witness :
    (∀ c, spaceOrTab c = true → c = ' ' ∨ c = '\t' ∨ c = '\n' ∨ c = '\x0b')
      ∧ ['a', ' ', '\\', '\\', '"', 'b', '\\'].length < 2 ^ 31
      ∧ CommandLineToArgvW spaceOrTab
          (ArgvQuote ['a', ' ', '\\', '\\', '"', 'b', '\\'] [] false)
          = [['a', ' ', '\\', '\\', '"', 'b', '\\']] := by
  have hws : ∀ c, spaceOrTab c = true → c = ' ' ∨ c = '\t' ∨ c = '\n' ∨ c = '\x0b' := by
    intro c hc
    simp only [spaceOrTab, Bool.or_eq_true, beq_iff_eq] at hc
    rcases hc with h | h
    · exact Or.inl h
    · exact Or.inr (Or.inl h)
  exact ⟨hws, by decide,
    (ArgvQuote_round_trip spaceOrTab hws ['a', ' ', '\\', '\\', '"', 'b', '\\'] [] false
      (by decide)).2.1⟩

end quote

namespace capsule

/-- C14, a setup whose shared memory cannot be opened. With no session, a
positive width and height, and `Open` returning something other than `kOK`,
`StartSession` only records the `Open` call: `session_` stays null, no session
object or receiver is made, no call is made on any session, the factory is not
called, and `old_sessions_`, `conns_` and `best_conn_` are as before. The
dispatch of the message gives the same state, and a loop cycle that pops it
leaves the loop running with the rest of the queue. A valid `VideoSetup` after
it is accepted: called directly, or popped by the next cycle, it makes the
session at the next fresh address and starts it. -/
theorem setup_failure_nonfatal (ret : Int) (m : MainLoop) (vs : messages.VideoSetup)
    (conn : Connection) (hs : m.session_ = none) (hw : 0 < vs.width) (hh : 0 < vs.height)
    (hret : ret ≠ shoom.kOK) :
    m.StartSession ret vs conn
        = { m with shm_opens := m.shm_opens ++ [(vs.shmem, ret)] }
      ∧ MainLoop.Dispatch ret m { conn := conn, buf := messages.Message.VideoSetup vs }
        = some { m with shm_opens := m.shm_opens ++ [(vs.shmem, ret)] }
      ∧ (∀ rest, m.returned = false →
          m.queue_ = { conn := conn, buf := messages.Message.VideoSetup vs } :: rest →
          m.step (MainLoop.Action.Cycle ret)
            = some { m with
                queue_ := rest
                dispatched := m.dispatched
                  ++ [{ conn := conn, buf := messages.Message.VideoSetup vs }]
                shm_opens := m.shm_opens ++ [(vs.shmem, ret)] })
      ∧ (∀ (vs2 : messages.VideoSetup) (conn2 : Connection), 0 < vs2.width → 0 < vs2.height →
          ((m.StartSession ret vs conn).StartSession shoom.kOK vs2 conn2).session_
              = some m.heap.length
            ∧ ((m.StartSession ret vs conn).StartSession shoom.kOK vs2 conn2).heap.length
              = m.heap.length + 1
            ∧ (m.heap.length, SessionCall.Start)
              ∈ ((m.StartSession ret vs conn).StartSession shoom.kOK vs2 conn2).calls)
      ∧ (∀ (vs2 : messages.VideoSetup) (conn2 : Connection) (rest : List LoopMessage),
          0 < vs2.width → 0 < vs2.height → m.returned = false →
          m.queue_ = { conn := conn, buf := messages.Message.VideoSetup vs }
            :: { conn := conn2, buf := messages.Message.VideoSetup vs2 } :: rest →
          ∃ m2, m.exec [MainLoop.Action.Cycle ret, MainLoop.Action.Cycle shoom.kOK] = some m2
            ∧ m2.session_ = some m.heap.length ∧ m2.returned = false ∧ m2.queue_ = rest) := by
  have hw0 : vs.width ≠ 0 := Nat.pos_iff_ne_zero.mp hw
  have hh0 : vs.height ≠ 0 := Nat.pos_iff_ne_zero.mp hh
  have hstart : m.StartSession ret vs conn
      = { m with shm_opens := m.shm_opens ++ [(vs.shmem, ret)] } := by
    simp [MainLoop.StartSession, hs, hw0, hh0, hret]
  have hnext : ∀ (s : MainLoop) (vs2 : messages.VideoSetup) (conn2 : Connection),
      s.session_ = none → 0 < vs2.width → 0 < vs2.height →
      (s.StartSession shoom.kOK vs2 conn2).session_ = some s.heap.length
        ∧ (s.StartSession shoom.kOK vs2 conn2).heap.length = s.heap.length + 1
        ∧ (s.heap.length, SessionCall.Start) ∈ (s.StartSession shoom.kOK vs2 conn2).calls
        ∧ (s.StartSession shoom.kOK vs2 conn2).returned = s.returned
        ∧ (s.StartSession shoom.kOK vs2 conn2).queue_ = s.queue_ := by
    intro s vs2 conn2 hs2 hw2 hh2
    have hw20 : vs2.width ≠ 0 := Nat.pos_iff_ne_zero.mp hw2
    have hh20 : vs2.height ≠ 0 := Nat.pos_iff_ne_zero.mp hh2
    simp [MainLoop.StartSession, hs2, hw20, hh20]
  refine ⟨hstart, ?_, ?_, ?_, ?_⟩
  · simp [MainLoop.Dispatch, hstart]
  · intro rest hr hq
    simp [MainLoop.step, hr, MainLoop.Run_cycle, hq, MainLoop.Dispatch,
      MainLoop.StartSession, hs, hw0, hh0, hret]
  · intro vs2 conn2 hw2 hh2
    rw [hstart]
    obtain ⟨h1, h2, h3, _, _⟩ :=
      hnext { m with shm_opens := m.shm_opens ++ [(vs.shmem, ret)] } vs2 conn2 hs hw2 hh2
    exact ⟨h1, h2, h3⟩
  · intro vs2 conn2 rest hw2 hh2 hr hq
    have hstep1 : m.step (MainLoop.Action.Cycle ret)
        = some { m with
            queue_ := { conn := conn2, buf := messages.Message.VideoSetup vs2 } :: rest
            dispatched := m.dispatched
              ++ [{ conn := conn, buf := messages.Message.VideoSetup vs }]
            shm_opens := m.shm_opens ++ [(vs.shmem, ret)] } := by
      simp [MainLoop.step, hr, MainLoop.Run_cycle, hq, MainLoop.Dispatch,
        MainLoop.StartSession, hs, hw0, hh0, hret]
    have hstep2 : ({ m with
            queue_ := { conn := conn2, buf := messages.Message.VideoSetup vs2 } :: rest
            dispatched := m.dispatched
              ++ [{ conn := conn, buf := messages.Message.VideoSetup vs }]
            shm_opens := m.shm_opens ++ [(vs.shmem, ret)] } : MainLoop).step
          (MainLoop.Action.Cycle shoom.kOK)
        = some (MainLoop.StartSession shoom.kOK
            { m with
              queue_ := rest
              dispatched := (m.dispatched
                ++ [{ conn := conn, buf := messages.Message.VideoSetup vs }])
                ++ [{ conn := conn2, buf := messages.Message.VideoSetup vs2 }]
              shm_opens := m.shm_opens ++ [(vs.shmem, ret)] } vs2 conn2) := by
      simp only [MainLoop.step, hr, Bool.false_eq_true, if_false, MainLoop.Run_cycle,
        MainLoop.Dispatch]
    obtain ⟨h1, _, _, h4, h5⟩ :=
      hnext { m with
          queue_ := rest
          dispatched := (m.dispatched
            ++ [{ conn := conn, buf := messages.Message.VideoSetup vs }])
            ++ [{ conn := conn2, buf := messages.Message.VideoSetup vs2 }]
          shm_opens := m.shm_opens ++ [(vs.shmem, ret)] } vs2 conn2 hs hw2 hh2
    refine ⟨_, ?_, h1, h4.trans hr, h5⟩
    simp only [MainLoop.exec, hstep1, Option.some_bind, hstep2]

/-- C14 on the initial state: the setup fails to open its shared memory with
code 1, and the state is the initial one with that `Open` call recorded. -/
theorem setup_failure_nonfatal_witness :
    (MainLoop.init MainLoop.sampleArgs none).session_ = none
      ∧ 0 < MainLoop.sampleSetup.width ∧ 0 < MainLoop.sampleSetup.height
      ∧ (1 : Int) ≠ shoom.kOK
      ∧ ((MainLoop.init MainLoop.sampleArgs none).StartSession 1 MainLoop.sampleSetup 5).heap
          = []
      ∧ ((MainLoop.init MainLoop.sampleArgs none).StartSession 1 MainLoop.sampleSetup 5).session_
          = none := by
  have h := (setup_failure_nonfatal 1 (MainLoop.init MainLoop.sampleArgs none)
    MainLoop.sampleSetup 5 rfl (by decide) (by decide) (by decide)).1
  refine ⟨rfl, by decide, by decide, by decide, ?_, ?_⟩
  · rw [h]
    rfl
  · rw [h]
    rfl

/-- C15 fails on the code. Connection 0 is added, its reader pushes
`HotkeyPressed` and then meets the end of the stream and removes the connection.
The loop now holds the message while there is no session, no preferred
connection and no connection; the cycle that dispatches it runs `CaptureStart`,
which reads the front of the empty `conns_`: the step is undefined. -/
theorem capture_start_without_target :
    ((MainLoop.init MainLoop.sampleArgs none).exec MainLoop.hotkeyThenEof).map
        (fun m => (m.returned, m.session_, m.best_conn_, m.conns_, m.queue_))
      = some (false, none, none, [],
          [{ conn := 0, buf := messages.Message.HotkeyPressed }])
    ∧ (MainLoop.init MainLoop.sampleArgs none).exec
        (MainLoop.hotkeyThenEof ++ [MainLoop.Action.Cycle 0]) = none :=
  ⟨rfl, rfl⟩

end capsule
